import Mathlib

/-!
Verification of the libzseek seekable-archive library.

This file gives a shallow embedding of the library's seek-table codec
(seek_table.c), frame cache (cache.c, both the tree+list and the hash-map
revisions), random-access reader (decompress.c) and frame-boundary writer
(compress.c), and proves the specified properties about them.

Modelling conventions:
* bytes are natural numbers below 256; multi-byte integers are little-endian;
* machine integers are `Nat` with an explicit `% 2 ^ 32` wherever the C code
  stores a value into a `uint32_t`;
* C loops are structural recursions on an explicit fuel argument; every call
  site passes fuel that is at least the number of iterations the C loop can
  perform, so the functions compute exactly what the loops compute;
* the external compression library (zstd) is out of scope and is modelled by
  an abstract `compress` / `decompress` function pair;
* fallible C functions (returning NULL / false / -1) become `Option`-valued
  functions; `malloc` failure is modelled by an explicit allocation flag
  where a claim depends on it.
-/

namespace Zseek

/-- Little-endian encoding of the low 32 bits of a value (`MEM_writeLE32`). -/
def le32 (v : Nat) : List Nat :=
  [v % 256, v / 256 % 256, v / 65536 % 256, v / 16777216 % 256]

/-- Little-endian decoding of the first four bytes of a list (`MEM_readLE32`). -/
def readLE32 (l : List Nat) : Nat :=
  l.getD 0 0 + 256 * l.getD 1 0 + 65536 * l.getD 2 0 + 16777216 * l.getD 3 0

/-- One parsed seek-table entry (`seekEntry_t`).  The checksum field is only
written by the parser when the checksum flag is set; we model it as `none`
otherwise (in the C struct the field is left uninitialised in that case). -/
structure SeekEntry where
  cOffset : Nat
  dOffset : Nat
  checksum : Option Nat
deriving Repr, DecidableEq, Inhabited

/-- A parsed seek table (`struct ZSTD_seekTable_s`): `entries` holds
`tableLen + 1` entries, the last one being the sentinel with the totals. -/
structure SeekTable where
  entries : List SeekEntry
  tableLen : Nat
  checksumFlag : Bool
deriving Repr, DecidableEq, Inhabited

/-- `st->entries[i]` (reads out of range give the default entry; the C code
never reads out of range under the asserted preconditions). -/
def entryAt (st : SeekTable) (i : Nat) : SeekEntry :=
  st.entries.getD i default

/-- `frame_offset_c` from seek_table.c. -/
def frame_offset_c (st : SeekTable) (frame_idx : Nat) : Nat :=
  (entryAt st frame_idx).cOffset

/-- `frame_offset_d` from seek_table.c. -/
def frame_offset_d (st : SeekTable) (frame_idx : Nat) : Nat :=
  (entryAt st frame_idx).dOffset

/-- `frame_size_c` from seek_table.c. -/
def frame_size_c (st : SeekTable) (frame_idx : Nat) : Nat :=
  (entryAt st (frame_idx + 1)).cOffset - (entryAt st frame_idx).cOffset

/-- `frame_size_d` from seek_table.c. -/
def frame_size_d (st : SeekTable) (frame_idx : Nat) : Nat :=
  (entryAt st (frame_idx + 1)).dOffset - (entryAt st frame_idx).dOffset

/-- `seek_table_entries` from seek_table.c. -/
def seek_table_entries (st : SeekTable) : Nat :=
  st.tableLen

/-- `seek_table_decompressed_size` from seek_table.c: the sentinel dOffset. -/
def seek_table_decompressed_size (st : SeekTable) : Nat :=
  (entryAt st st.tableLen).dOffset

/-- The `while (lo + 1 < hi)` loop of `offset_to_frame_idx`.  `hi - lo`
strictly decreases on every iteration, so running the loop with fuel at
least `hi - lo` computes exactly what the C loop computes. -/
def searchLoop (st : SeekTable) (offset : Nat) : Nat → Nat → Nat → Nat
  | 0, lo, _ => lo
  | fuel + 1, lo, hi =>
    if lo + 1 < hi then
      let mid := lo + (hi - lo) / 2
      if (entryAt st mid).dOffset ≤ offset then searchLoop st offset fuel mid hi
      else searchLoop st offset fuel lo mid
    else lo

/-- `offset_to_frame_idx` from seek_table.c: -1 when the offset is at or
past the sentinel, otherwise the binary-search result over
`lo = 0, hi = tableLen`. -/
def offset_to_frame_idx (st : SeekTable) (offset : Nat) : Int :=
  if (entryAt st st.tableLen).dOffset ≤ offset then -1
  else Int.ofNat (searchLoop st offset st.tableLen 0 st.tableLen)

/-- A concrete three-frame seek table used by witnesses. -/
def exTable : SeekTable :=
  { entries := [⟨0, 0, none⟩, ⟨4, 3, none⟩, ⟨9, 7, none⟩], tableLen := 2,
    checksumFlag := false }

/-- One writer-side frame-log entry (`framelogEntry_t`); all fields are
`uint32_t` values. -/
structure FramelogEntry where
  cSize : Nat
  dSize : Nat
  checksum : Nat
deriving Repr, DecidableEq, Inhabited

/-- The writer-side frame log (`struct ZSTD_frameLog_s`).  The C `size`
field is `entries.length`; `capacity` only concerns reallocation and is not
modelled. -/
structure FrameLog where
  entries : List FramelogEntry
  checksumFlag : Bool
  seekTablePos : Nat
  seekTableIndex : Nat
deriving Repr, DecidableEq, Inhabited

/-- `ZSTD_outBuffer`: `dst` holds the bytes written so far, so the C `pos`
index equals `dst.length`; `size` is the capacity.  All writes in the
embedded code happen at `pos`, which makes the written-prefix representation
exact. -/
structure OutBuffer where
  dst : List Nat
  size : Nat
deriving Repr, DecidableEq, Inhabited

def ZSTD_SEEKABLE_MAXFRAMES : Nat := 134217728

def ERROR_GENERIC : Nat := 18446744073709551615

/-- `ZSTD_seekable_logFrame`: appends an entry, failing at the frame-count
cap.  The C prototype takes `unsigned` arguments, hence the `% 2 ^ 32` on
the (possibly `size_t`-valued) actuals. -/
def ZSTD_seekable_logFrame (fl : FrameLog)
    (compressedSize decompressedSize checksum : Nat) : Option FrameLog :=
  if fl.entries.length = ZSTD_SEEKABLE_MAXFRAMES then none
  else some { fl with entries := fl.entries ++
    [⟨compressedSize % 4294967296, decompressedSize % 4294967296,
      checksum % 4294967296⟩] }

/-- `sizePerFrame` as computed inside the seek-table writer. -/
def sizePerFrame (checksumFlag : Bool) : Nat :=
  8 + (if checksumFlag then 4 else 0)

/-- `ZSTD_seekable_seekTableSize`. -/
def ZSTD_seekable_seekTableSize (fl : FrameLog) : Nat :=
  8 + sizePerFrame fl.checksumFlag * fl.entries.length + 9

/-- `ZSTD_stwrite32`: writes into the output the slice of the 32-bit word at
table offset `offset` that is still unwritten and fits, advancing both
positions; returns the non-zero number of outstanding table bytes when the
word could not be completed. -/
def ZSTD_stwrite32 (fl : FrameLog) (output : OutBuffer) (value offset : Nat) :
    FrameLog × OutBuffer × Nat :=
  if fl.seekTablePos < offset + 4 then
    let lenWrite := min (output.size - output.dst.length)
      (offset + 4 - fl.seekTablePos)
    let output' : OutBuffer :=
      { output with
        dst := output.dst ++ ((le32 value).drop (fl.seekTablePos - offset)).take lenWrite }
    let fl' : FrameLog := { fl with seekTablePos := fl.seekTablePos + lenWrite }
    if lenWrite < 4 then
      (fl', output', ZSTD_seekable_seekTableSize fl' - fl'.seekTablePos)
    else (fl', output', 0)
  else (fl, output, 0)

/-- The `while (fl->seekTableIndex < fl->size)` loop of
`ZSTD_seekable_writeSeekTable`; the fuel is instantiated with the number of
remaining entries, which is exactly how many iterations the C loop runs
(early `CHECK_Z` returns only shorten that). -/
def writeEntriesLoop : Nat → FrameLog → OutBuffer → FrameLog × OutBuffer × Nat
  | 0, fl, output => (fl, output, 0)
  | fuel + 1, fl, output =>
    if fl.seekTableIndex < fl.entries.length then
      let e := fl.entries.getD fl.seekTableIndex default
      let start := 8 + sizePerFrame fl.checksumFlag * fl.seekTableIndex
      let r1 := ZSTD_stwrite32 fl output e.cSize start
      if r1.2.2 ≠ 0 then r1 else
      let r2 := ZSTD_stwrite32 r1.1 r1.2.1 e.dSize (start + 4)
      if r2.2.2 ≠ 0 then r2 else
      if r2.1.checksumFlag then
        let r3 := ZSTD_stwrite32 r2.1 r2.2.1 e.checksum (start + 8)
        if r3.2.2 ≠ 0 then r3
        else writeEntriesLoop fuel
          { r3.1 with seekTableIndex := r3.1.seekTableIndex + 1 } r3.2.1
      else writeEntriesLoop fuel
        { r2.1 with seekTableIndex := r2.1.seekTableIndex + 1 } r2.2.1
    else (fl, output, 0)

/-- `ZSTD_seekable_writeSeekTable`: the resumable trailer encoder.  Returns
the updated frame log, the output buffer, and 0 when the full table has been
written (a non-zero result is the outstanding byte count, or an error
code). -/
def ZSTD_seekable_writeSeekTable (fl : FrameLog) (output : OutBuffer) :
    FrameLog × OutBuffer × Nat :=
  let seekTableLen := ZSTD_seekable_seekTableSize fl
  let r1 := ZSTD_stwrite32 fl output 0x184D2A5E 0
  if r1.2.2 ≠ 0 then r1 else
  let r2 := ZSTD_stwrite32 r1.1 r1.2.1 (seekTableLen - 8) 4
  if r2.2.2 ≠ 0 then r2 else
  let r3 := writeEntriesLoop (r2.1.entries.length - r2.1.seekTableIndex) r2.1 r2.2.1
  if r3.2.2 ≠ 0 then r3 else
  let r4 := ZSTD_stwrite32 r3.1 r3.2.1 r3.1.entries.length (seekTableLen - 9)
  if r4.2.2 ≠ 0 then r4 else
  if r4.2.1.size - r4.2.1.dst.length < 1 then
    (r4.1, r4.2.1, seekTableLen - r4.1.seekTablePos)
  else
  let r5 : FrameLog × OutBuffer :=
    if r4.1.seekTablePos < seekTableLen - 4 then
      ({ r4.1 with seekTablePos := r4.1.seekTablePos + 1 },
       { r4.2.1 with dst := r4.2.1.dst ++ [if r4.1.checksumFlag then 128 else 0] })
    else (r4.1, r4.2.1)
  let r6 := ZSTD_stwrite32 r5.1 r5.2 0x8F92EAB1 (seekTableLen - 4)
  if r6.2.2 ≠ 0 then r6 else
  if r6.1.seekTablePos ≠ seekTableLen then (r6.1, r6.2.1, ERROR_GENERIC)
  else (r6.1, r6.2.1, 0)

/-- The byte encoding of one frame-log entry inside the trailer. -/
def encodeEntry (checksumFlag : Bool) (e : FramelogEntry) : List Nat :=
  le32 e.cSize ++ le32 e.dSize ++ (if checksumFlag then le32 e.checksum else [])

/-- The full trailer byte string the encoder is expected to emit. -/
def seekTableBytes (entries : List FramelogEntry) (checksumFlag : Bool) : List Nat :=
  le32 0x184D2A5E ++
  le32 (8 + sizePerFrame checksumFlag * entries.length + 9 - 8) ++
  ((entries.map (encodeEntry checksumFlag)).flatten) ++
  le32 entries.length ++ [if checksumFlag then 128 else 0] ++ le32 0x8F92EAB1

/-- Positional read over an in-memory file (`default_pread` semantics): the
returned byte count is the length of the result, which falls short of `size`
when the file ends early. -/
def fpread (file : List Nat) (size offset : Nat) : List Nat :=
  (file.drop offset).take size

def ZSTD_seekTableFooterSize : Nat := 9

def ZSTD_SKIPPABLEHEADERSIZE : Nat := 8

def ZSTD_SEEKABLE_MAGICNUMBER : Nat := 0x8F92EAB1

def SEEKTABLE_SKIPPABLE_MAGICNUMBER : Nat := 0x184D2A5E

/-- The entry loop of `read_st_entries`.  The C code streams the region
through a 4 KiB buffer sized to a whole number of entries; byte for byte it
consumes exactly `num_entries * entry_size` consecutive bytes and fails iff
the file ends inside them, so we consume the byte stream directly (`bytes`
is the file suffix at the entries offset). -/
def read_st_entries_loop (checksum : Bool) :
    Nat → List Nat → Nat → Nat → List SeekEntry → Option (List SeekEntry)
  | 0, _, c_offset, d_offset, acc =>
      some (acc ++ [⟨c_offset, d_offset, none⟩])
  | e + 1, bytes, c_offset, d_offset, acc =>
      if 8 + (if checksum then 4 else 0) ≤ bytes.length then
        read_st_entries_loop checksum e
          (bytes.drop (8 + (if checksum then 4 else 0)))
          (c_offset + readLE32 bytes) (d_offset + readLE32 (bytes.drop 4))
          (acc ++ [⟨c_offset, d_offset,
            if checksum then some (readLE32 (bytes.drop 8)) else none⟩])
      else none

/-- `read_seek_table` (the user-file revision), over an in-memory file.  A
positional read whose offset computation would go below zero is a failure,
matching the C code where the negative offset wraps to a huge `size_t` and
the read comes back short. -/
def read_seek_table (file : List Nat) : Option SeekTable :=
  let fsize := file.length
  if fsize < ZSTD_seekTableFooterSize then none else
  let footer := fpread file ZSTD_seekTableFooterSize (fsize - ZSTD_seekTableFooterSize)
  if readLE32 (footer.drop 5) ≠ ZSTD_SEEKABLE_MAGICNUMBER then none else
  if (footer.getD 4 0) &&& 0x7c ≠ 0 then none else
  let checksum : Bool := (footer.getD 4 0) &&& 0x80 ≠ 0
  let num_frames := readLE32 footer
  let seek_frame_size := ZSTD_SKIPPABLEHEADERSIZE +
    num_frames * (8 + (if checksum then 4 else 0)) + ZSTD_seekTableFooterSize
  if fsize < seek_frame_size then none else
  let header := fpread file ZSTD_SKIPPABLEHEADERSIZE (fsize - seek_frame_size)
  if readLE32 header ≠ SEEKTABLE_SKIPPABLE_MAGICNUMBER then none else
  if readLE32 (header.drop 4) ≠ seek_frame_size - ZSTD_SKIPPABLEHEADERSIZE then none else
  match read_st_entries_loop checksum num_frames
      (file.drop (fsize - seek_frame_size + ZSTD_SKIPPABLEHEADERSIZE)) 0 0 [] with
  | none => none
  | some entries =>
      some { entries := entries, tableLen := num_frames, checksumFlag := checksum }

/-- The bytes emitted by a single `ZSTD_seekable_writeSeekTable` call on a
fresh frame log and an initially empty output buffer of capacity
`outSize`. -/
def emittedTrailer (es : List FramelogEntry) (b : Bool) (outSize : Nat) : List Nat :=
  ((ZSTD_seekable_writeSeekTable ⟨es, b, 0, 0⟩ ⟨[], outSize⟩).2.1).dst

/-- A concrete two-entry frame log used by witnesses. -/
def ex3Entries : List FramelogEntry :=
  [⟨5, 6, 7⟩, ⟨300, 70000, 2⟩]

/-- The entries (prefix-sum offsets plus sentinel) that parsing a trailer
written for the frame log `es` must produce. -/
def prefixEntries (b : Bool) : List FramelogEntry → Nat → Nat → List SeekEntry
  | [], c0, d0 => [⟨c0, d0, none⟩]
  | e :: es, c0, d0 =>
      ⟨c0, d0, if b then some e.checksum else none⟩ ::
        prefixEntries b es (c0 + e.cSize) (d0 + e.dSize)

/-- `zseek_frame_t`: an owned decompressed frame. -/
structure Frame where
  data : List Nat
  idx : Nat
  len : Nat
deriving Repr, DecidableEq, Inhabited

/-- The hash-map cache revision (`struct zseek_cache` over uthash).  The
uthash map doubles as the insertion-order list: `map`'s head is the LRU
item, its tail the MRU item. -/
structure HMCache where
  map : List Frame
  size : Nat
  capacity : Nat
  entries_memory : Nat
deriving Repr, DecidableEq, Inhabited

/-- `HASH_FIND` on the frame index. -/
def hmFindItem : List Frame → Nat → Option Frame
  | [], _ => none
  | f :: rest, idx => if f.idx = idx then some f else hmFindItem rest idx

/-- `HASH_DELETE` of the item holding `idx` (removes the first hit). -/
def hmRemoveItem : List Frame → Nat → List Frame
  | [], _ => []
  | f :: rest, idx => if f.idx = idx then rest else f :: hmRemoveItem rest idx

/-- `zseek_cache_new` (hash-map revision): fails (returns NULL) for
capacity 0. -/
def zseek_cache_new (capacity : Nat) : Option HMCache :=
  if capacity = 0 then none
  else some { map := [], size := 0, capacity := capacity, entries_memory := 0 }

/-- `zseek_cache_find` (hash-map revision): on a hit the item is re-inserted
(`HASH_REPLACE`, i.e. delete plus add at the tail), making it MRU. -/
def zseek_cache_find (cache : HMCache) (frame_idx : Nat) : Option Frame × HMCache :=
  match hmFindItem cache.map frame_idx with
  | none => (none, cache)
  | some f => (some f,
      { cache with map := hmRemoveItem cache.map frame_idx ++ [f] })

/-- `zseek_cache_insert` (hash-map revision).  The duplicate check comes
first; at capacity the LRU head is evicted and its node reused, otherwise a
node is allocated — `allocOk` models that single `malloc`.  (The branch for
an empty map at capacity is unreachable because `zseek_cache_new` rejects
capacity 0; the C code would pass NULL to `HASH_DELETE` there.) -/
def zseek_cache_insert (allocOk : Bool) (cache : HMCache) (frame : Frame) :
    Bool × HMCache :=
  match hmFindItem cache.map frame.idx with
  | some _ => (false, cache)
  | none =>
    if cache.size = cache.capacity then
      match cache.map with
      | [] => (false, cache)
      | lru :: rest =>
        (true, { cache with
          map := rest ++ [frame]
          size := cache.size - 1 + 1
          entries_memory := cache.entries_memory - lru.len + frame.len })
    else
      if allocOk then
        (true, { cache with
          map := cache.map ++ [frame]
          size := cache.size + 1
          entries_memory := cache.entries_memory + frame.len })
      else (false, cache)

/-- `zseek_cache_entries` (hash-map revision). -/
def zseek_cache_entries (cache : HMCache) : Nat :=
  cache.size

/-- `zseek_cache_memory_usage` (hash-map revision):
`sizeof(*cache) + size * sizeof(*map) + HASH_OVERHEAD + entries_memory`.
The `sizeof` constants and the uthash table overhead are platform values;
they enter as parameters. -/
def zseek_cache_memory_usage (structBytes itemBytes hashOverhead : Nat)
    (cache : HMCache) : Nat :=
  structBytes + cache.size * itemBytes + hashOverhead + cache.entries_memory

namespace TreeRev

/-- The tree+list cache revision (`struct zseek_cache` over tsearch/insque):
a BST keyed by frame index whose key set is `bstIdxs`, and the linked list
`lst` with the LRU item at the head and the MRU item at the tail. -/
structure Cache where
  bstIdxs : List Nat
  lst : List Frame
  size : Nat
  capacity : Nat
  entries_memory : Nat
deriving Repr, DecidableEq, Inhabited

/-- `evict_lru` (tree+list revision): unlinks the head of the list and
deletes its key from the BST. -/
def evict_lru (cache : Cache) : Cache :=
  match cache.lst with
  | [] => cache
  | lru :: rest =>
      { cache with
        lst := rest
        bstIdxs := cache.bstIdxs.erase lru.idx
        size := cache.size - 1
        entries_memory := cache.entries_memory - lru.len }

/-- `zseek_cache_insert` (tree+list revision).  There is no duplicate
check: `tsearch` returns the existing node when the key is already present
(still non-NULL, hence not a failure), and the new list node is appended as
MRU regardless.  `allocOk` models the `malloc` of the node and any
allocation inside `tsearch`. -/
def zseek_cache_insert (allocOk : Bool) (cache : Cache) (frame : Frame) :
    Bool × Cache :=
  let cache := if cache.size = cache.capacity then evict_lru cache else cache
  if allocOk then
    let cache := if frame.idx ∈ cache.bstIdxs then cache
      else { cache with bstIdxs := cache.bstIdxs ++ [frame.idx] }
    (true, { cache with
      lst := cache.lst ++ [frame]
      size := cache.size + 1
      entries_memory := cache.entries_memory + frame.len })
  else (false, cache)

/-- `zseek_cache_entries` (tree+list revision). -/
def zseek_cache_entries (cache : Cache) : Nat :=
  cache.size

end TreeRev

/-- `struct zseek_reader` (multi-codec revision), ZSTD variant.  The
decompression contexts live behind the abstract codec and the `cbuf`/`dbuf`
work buffers hold no observable state, so the model keeps the parsed seek
table, the optional cache, and the `read` cursor. -/
structure Reader where
  st : SeekTable
  cache : Option HMCache
  pos : Nat
deriving Repr, DecidableEq, Inhabited

/-- `zseek_reader_open_full_zstd` (cache-optional revision): parses the
seek table and creates the cache only when `cache_size > 0`. -/
def zseek_reader_open_full_zstd (file : List Nat) (cache_size : Nat) :
    Option Reader :=
  match read_seek_table file with
  | none => none
  | some st =>
    if cache_size > 0 then
      match zseek_cache_new cache_size with
      | none => none
      | some cache => some { st := st, cache := some cache, pos := 0 }
    else some { st := st, cache := none, pos := 0 }

namespace UncondRev

/-- `zseek_reader_open_full_zstd` (the decompress.c revision): after the
seek table is parsed, `zseek_cache_new(cache_size)` is called
unconditionally and a NULL cache fails the open — there is no cacheless
reader in this revision.  (Lock, context and work-buffer creation are
modelled as succeeding.) -/
def zseek_reader_open_full_zstd (file : List Nat) (cache_size : Nat) :
    Option Reader :=
  match read_seek_table file with
  | none => none
  | some st =>
    match zseek_cache_new cache_size with
    | none => none
    | some cache => some { st := st, cache := some cache, pos := 0 }

end UncondRev

/-- `zseek_pread_zstd_no_cache`.  `decompress` abstracts the ZSTD streaming
decoder: on one frame's compressed bytes it yields that frame's decompressed
stream, of which the discard loop consumes `offset_in_frame` bytes and the
user loop `to_decompress` more; a stream that ends before filling the
requested output stalls/fails the C loops (modelled as the error return). -/
def zseek_pread_zstd_no_cache (decompress : List Nat → List Nat)
    (file : List Nat) (st : SeekTable) (count offset : Nat) :
    Option (Nat × List Nat) :=
  let fi := offset_to_frame_idx st offset
  if fi = -1 then some (0, [])
  else
    let frame_idx := fi.toNat
    let frame_csize := frame_size_c st frame_idx
    let frame_offset := frame_offset_c st frame_idx
    if frame_offset + frame_csize ≤ file.length then
      let d := decompress (fpread file frame_csize frame_offset)
      let offset_in_frame := offset - frame_offset_d st frame_idx
      let frame_dsize := frame_size_d st frame_idx
      let to_decompress := min count (frame_dsize - offset_in_frame)
      if offset_in_frame + to_decompress ≤ d.length then
        some (to_decompress, (d.drop offset_in_frame).take to_decompress)
      else none
    else none

/-- `zseek_pread_zstd` with a cache: find under the read lock; on a miss
release, take the write lock and re-check (both finds are kept — run
single-threadedly they see the same state); then fetch, decompress with
`ZSTD_decompressDCtx`, insert, and copy out.  The reader's own buffer
allocations are modelled as succeeding. -/
def zseek_pread_zstd_cached (decompress : List Nat → List Nat)
    (file : List Nat) (st : SeekTable) (cache : HMCache) (count offset : Nat) :
    Option (Nat × List Nat) × HMCache :=
  let fi := offset_to_frame_idx st offset
  if fi = -1 then (some (0, []), cache)
  else
    let frame_idx := fi.toNat
    match zseek_cache_find cache frame_idx with
    | (some frame, cache1) =>
      let offset_in_frame := offset - frame_offset_d st frame_idx
      let to_copy := min count (frame.len - offset_in_frame)
      (some (to_copy, (frame.data.drop offset_in_frame).take to_copy), cache1)
    | (none, cache1) =>
      match zseek_cache_find cache1 frame_idx with
      | (some frame, cache2) =>
        let offset_in_frame := offset - frame_offset_d st frame_idx
        let to_copy := min count (frame.len - offset_in_frame)
        (some (to_copy, (frame.data.drop offset_in_frame).take to_copy), cache2)
      | (none, cache2) =>
        let frame_csize := frame_size_c st frame_idx
        let frame_offset := frame_offset_c st frame_idx
        if frame_offset + frame_csize ≤ file.length then
          let frame : Frame :=
            { data := decompress (fpread file frame_csize frame_offset)
              idx := frame_idx
              len := frame_size_d st frame_idx }
          match zseek_cache_insert true cache2 frame with
          | (true, cache3) =>
            let offset_in_frame := offset - frame_offset_d st frame_idx
            let to_copy := min count (frame.len - offset_in_frame)
            (some (to_copy, (frame.data.drop offset_in_frame).take to_copy), cache3)
          | (false, cache3) => (none, cache3)
        else (none, cache2)

/-- `zseek_pread` (ZSTD dispatch): the no-cache fast path is taken exactly
when the reader was opened with cache capacity 0. -/
def zseek_pread (decompress : List Nat → List Nat) (file : List Nat)
    (reader : Reader) (count offset : Nat) :
    Option (Nat × List Nat) × Reader :=
  match reader.cache with
  | none => (zseek_pread_zstd_no_cache decompress file reader.st count offset,
      reader)
  | some cache =>
    let r := zseek_pread_zstd_cached decompress file reader.st cache count offset
    (r.1, { reader with cache := some r.2 })

/-- `zseek_read`: pread at the internal cursor; the cursor advances only on
a positive return. -/
def zseek_read (decompress : List Nat → List Nat) (file : List Nat)
    (reader : Reader) (count : Nat) : Option (Nat × List Nat) × Reader :=
  let r := zseek_pread decompress file reader count reader.pos
  match r.1 with
  | some (n, bs) =>
    (some (n, bs), if 0 < n then { r.2 with pos := r.2.pos + n } else r.2)
  | none => (none, r.2)

/-- A sequence of `zseek_pread` calls on one reader, threading its state;
the returned list holds each call's result. -/
def runReads (decompress : List Nat → List Nat) (file : List Nat)
    (reader : Reader) : List (Nat × Nat) → List (Option (Nat × List Nat))
  | [] => []
  | (count, offset) :: qs =>
    let r := zseek_pread decompress file reader count offset
    r.1 :: runReads decompress file r.2 qs

/-- A parsed seek table that matches `file` under `decompress`: dOffsets
start at 0 and grow strictly, cOffsets grow and stay inside the compressed
prefix of the file, and each frame's compressed bytes decompress to exactly
the recorded byte count. -/
def archiveWF (decompress : List Nat → List Nat) (file : List Nat)
    (st : SeekTable) : Prop :=
  (entryAt st 0).dOffset = 0 ∧
  (∀ i, i < st.tableLen → (entryAt st i).dOffset < (entryAt st (i + 1)).dOffset) ∧
  (∀ i, i < st.tableLen → (entryAt st i).cOffset ≤ (entryAt st (i + 1)).cOffset) ∧
  (entryAt st st.tableLen).cOffset ≤ file.length ∧
  (∀ i, i < st.tableLen →
    (decompress (fpread file (frame_size_c st i) (frame_offset_c st i))).length =
      frame_size_d st i)

/-- The cache invariant the reader maintains: sizes are consistent and every
cached frame holds exactly the decompressed bytes of its archive frame. -/
def cacheInv (decompress : List Nat → List Nat) (file : List Nat)
    (st : SeekTable) (cache : HMCache) : Prop :=
  cache.size = cache.map.length ∧ 0 < cache.capacity ∧
  ∀ f ∈ cache.map, f.idx < st.tableLen ∧
    f.data = decompress (fpread file (frame_size_c st f.idx) (frame_offset_c st f.idx)) ∧
    f.len = frame_size_d st f.idx

/-- `struct zseek_writer` (seek-table-entry revision), single-threaded ZSTD
variant (`mt = false`).  `out` is everything written to the sink and `fl`
the frame log object. -/
structure Writer where
  ubuf : List Nat
  frame_uc : Nat
  frame_cm : Nat
  min_frame_size : Nat
  total_cm : Nat
  fl : FrameLog
  out : List Nat
  frames_per_ste : Nat
  ste_frames : Nat
  ste_uc : Nat
  ste_cm : Nat
deriving Repr, DecidableEq, Inhabited

def DEFAULT_FRAMES_PER_STE : Nat := 10

/-- `ZSTD_seekable_createFrameLog` (allocation modelled as succeeding). -/
def ZSTD_seekable_createFrameLog (checksumFlag : Bool) : FrameLog :=
  ⟨[], checksumFlag, 0, 0⟩

/-- `zseek_writer_open_full_zstd`, single-threaded: fresh buffers, a frame
log without checksums, and the hard-coded frames-per-entry default. -/
def zseek_writer_open_zstd (min_frame_size : Nat) : Writer :=
  { ubuf := []
    frame_uc := 0
    frame_cm := 0
    min_frame_size := min_frame_size
    total_cm := 0
    fl := ZSTD_seekable_createFrameLog false
    out := []
    frames_per_ste := DEFAULT_FRAMES_PER_STE
    ste_frames := 0
    ste_uc := 0
    ste_cm := 0 }

/-- `end_frame_zstd` (single-threaded): one-shot compress of the input
buffer, write-out, seek-table-entry accounting (logging an entry when the
group is full or `force_ste` is set), then frame-counter reset. -/
def end_frame_zstd (compress : List Nat → List Nat) (writer : Writer)
    (force_ste : Bool) : Option Writer :=
  let cdata := compress writer.ubuf
  let w1 : Writer := { writer with
    frame_cm := writer.frame_cm + cdata.length
    out := writer.out ++ cdata }
  let w2 : Writer := { w1 with
    ste_frames := w1.ste_frames + 1
    ste_uc := w1.ste_uc + w1.frame_uc
    ste_cm := w1.ste_cm + w1.frame_cm }
  let step : Option Writer :=
    if w2.ste_frames = w2.frames_per_ste ∨ force_ste = true then
      match ZSTD_seekable_logFrame w2.fl w2.ste_cm w2.ste_uc 0 with
      | none => none
      | some fl1 => some { w2 with
          fl := fl1
          ste_frames := 0
          ste_uc := 0
          ste_cm := 0 }
    else some w2
  match step with
  | none => none
  | some w3 => some { w3 with
      total_cm := w3.total_cm + w3.frame_cm
      frame_uc := 0
      frame_cm := 0
      ubuf := [] }

/-- `compress_frame_zstd`: the no-copy path that compresses the caller's
buffer directly into a whole frame.  Note: it can only ever log a
seek-table entry when the group becomes full — there is no `force_ste`
here. -/
def compress_frame_zstd (compress : List Nat → List Nat) (writer : Writer)
    (buf : List Nat) : Option Writer :=
  let cdata := compress buf
  let w1 : Writer := { writer with
    frame_uc := writer.frame_uc + buf.length
    frame_cm := writer.frame_cm + cdata.length
    out := writer.out ++ cdata }
  let w2 : Writer := { w1 with
    ste_frames := w1.ste_frames + 1
    ste_uc := w1.ste_uc + w1.frame_uc
    ste_cm := w1.ste_cm + w1.frame_cm }
  let step : Option Writer :=
    if w2.ste_frames = w2.frames_per_ste then
      match ZSTD_seekable_logFrame w2.fl w2.ste_cm w2.ste_uc 0 with
      | none => none
      | some fl1 => some { w2 with
          fl := fl1
          ste_frames := 0
          ste_uc := 0
          ste_cm := 0 }
    else some w2
  match step with
  | none => none
  | some w3 => some { w3 with
      total_cm := w3.total_cm + w3.frame_cm
      frame_uc := 0
      frame_cm := 0 }

/-- `zseek_write_zstd` (single-threaded): direct whole-frame compression
when the current frame is empty and the block alone reaches the threshold;
otherwise buffer, and end the frame once the threshold is reached. -/
def zseek_write_zstd (compress : List Nat → List Nat) (writer : Writer)
    (buf : List Nat) : Option Writer :=
  if writer.frame_cm = 0 ∧ writer.min_frame_size ≤ buf.length then
    compress_frame_zstd compress writer buf
  else
    let w1 : Writer := { writer with
      ubuf := writer.ubuf ++ buf
      frame_uc := writer.frame_uc + buf.length }
    if w1.min_frame_size ≤ w1.frame_uc then end_frame_zstd compress w1 false
    else some w1

/-- The `do {} while (rem > 0)` loop in `zseek_writer_close_zstd` that
streams the seek table through 4096-byte output buffers, appending each
chunk to the sink.  While unfinished every iteration makes progress, so the
table size bounds the iterations (the fuel). -/
def writeSeekTableLoop : Nat → FrameLog → List Nat → List Nat
  | 0, _, acc => acc
  | fuel + 1, fl, acc =>
    let r := ZSTD_seekable_writeSeekTable fl ⟨[], 4096⟩
    let acc1 := acc ++ r.2.1.dst
    if r.2.2 > 0 then writeSeekTableLoop fuel r.1 acc1 else acc1

/-- `zseek_writer_close_zstd`: force-flush the final frame only when the
uncompressed frame byte count is positive, then emit the seek table.
Returns the success flag and the full sink contents. -/
def zseek_writer_close_zstd (compress : List Nat → List Nat)
    (writer : Writer) : Bool × List Nat :=
  match (if writer.frame_uc > 0 then end_frame_zstd compress writer true
    else some writer) with
  | none => (false, writer.out ++
      writeSeekTableLoop (ZSTD_seekable_seekTableSize writer.fl + 1) writer.fl [])
  | some w1 => (true, w1.out ++
      writeSeekTableLoop (ZSTD_seekable_seekTableSize w1.fl + 1) w1.fl [])

/-- The ten 0xAA bytes of the C4/C1 failing scenario. -/
def exB : List Nat := List.replicate 10 170

/-- The archive produced by `open(min_frame_size = 4)`, one `write` of
`exB`, and `close`, with the identity codec. -/
def exArchive : List Nat :=
  match zseek_write_zstd (fun l => l) (zseek_writer_open_zstd 4) exB with
  | some w => (zseek_writer_close_zstd (fun l => l) w).2
  | none => []

/-- The writer state after the single `write` of the round-trip scenario
(`open` with `min_frame_size` 4, one `write` of `exB`). -/
def exWriter1 : Writer :=
  (zseek_write_zstd (fun l => l) (zseek_writer_open_zstd 4) exB).getD default

/-- A one-frame archive: the frame bytes `[1,2,3,4,5]` (identity codec)
followed by a trailer with the single entry `(5, 5)`. -/
def exFile5 : List Nat :=
  [1, 2, 3, 4, 5] ++ seekTableBytes [⟨5, 5, 0⟩] false

/-- The parsed seek table of `exFile5`. -/
def exTable5 : SeekTable :=
  ⟨[⟨0, 0, none⟩, ⟨5, 5, none⟩], 1, false⟩

/-- A 17-byte trailer whose descriptor byte is 0x01 (reserved-range bit 0
set) and which is otherwise valid, with zero frames. -/
def ex7file : List Nat :=
  le32 0x184D2A5E ++ le32 9 ++ le32 0 ++ [1] ++ le32 0x8F92EAB1

theorem readLE32_le32 (v : Nat) (h : v < 4294967296) : readLE32 (le32 v) = v := by
  show v % 256 + 256 * (v / 256 % 256) + 65536 * (v / 65536 % 256) +
      16777216 * (v / 16777216 % 256) = v
  omega

theorem le32_length (v : Nat) : (le32 v).length = 4 := rfl

/-- Loop invariant of the binary search: starting from a bracketing pair
`lo < hi` with enough fuel, the result `r` still brackets the offset with a
window of width one. -/
theorem searchLoop_spec (st : SeekTable) (offset : Nat) :
    ∀ fuel lo hi, hi - lo ≤ fuel + 1 → lo < hi →
      (entryAt st lo).dOffset ≤ offset → offset < (entryAt st hi).dOffset →
      lo ≤ searchLoop st offset fuel lo hi ∧
      searchLoop st offset fuel lo hi + 1 ≤ hi ∧
      (entryAt st (searchLoop st offset fuel lo hi)).dOffset ≤ offset ∧
      offset < (entryAt st (searchLoop st offset fuel lo hi + 1)).dOffset := by
  intro fuel
  induction fuel with
  | zero =>
    intro lo hi hfuel hlt hlo hhi
    have hhi' : hi = lo + 1 := by omega
    subst hhi'
    simp only [searchLoop]
    exact ⟨le_refl _, le_refl _, hlo, hhi⟩
  | succ fuel ih =>
    intro lo hi hfuel hlt hlo hhi
    by_cases hcond : lo + 1 < hi
    · have hmidlo : lo < lo + (hi - lo) / 2 := by omega
      have hmidhi : lo + (hi - lo) / 2 < hi := by omega
      simp only [searchLoop, if_pos hcond]
      by_cases hmid : (entryAt st (lo + (hi - lo) / 2)).dOffset ≤ offset
      · simp only [if_pos hmid]
        obtain ⟨h1, h2, h3, h4⟩ := ih (lo + (hi - lo) / 2) hi (by omega) hmidhi hmid hhi
        exact ⟨by omega, h2, h3, h4⟩
      · simp only [if_neg hmid]
        obtain ⟨h1, h2, h3, h4⟩ := ih lo (lo + (hi - lo) / 2) (by omega) hmidlo hlo (by omega)
        exact ⟨h1, by omega, h3, h4⟩
    · simp only [searchLoop, if_neg hcond]
      have hhi' : hi = lo + 1 := by omega
      subst hhi'
      exact ⟨le_refl _, le_refl _, hlo, hhi⟩

/-- Pairwise strict growth of the dOffsets extends to any pair of indices
up to the sentinel. -/
theorem dOffset_mono (st : SeekTable)
    (hmono : ∀ i, i < st.tableLen →
      (entryAt st i).dOffset < (entryAt st (i + 1)).dOffset) :
    ∀ i j, i ≤ j → j ≤ st.tableLen →
      (entryAt st i).dOffset ≤ (entryAt st j).dOffset := by
  intro i j hij hj
  induction j with
  | zero => simp_all
  | succ j ih =>
    rcases Nat.lt_or_ge i (j + 1) with h | h
    · exact le_trans (ih (by omega) (by omega)) (le_of_lt (hmono j (by omega)))
    · have : i = j + 1 := by omega
      subst this
      exact le_refl _

/-- C2.  On a parsed seek table whose dOffsets grow strictly up to the
sentinel: `offset_to_frame_idx` maps any offset in
`[dOffset_i, dOffset_(i+1))` (in particular `dOffset_i` itself) to `i`, and
any offset at or past the sentinel dOffset to -1. -/
theorem offset_to_frame_idx_spec (st : SeekTable)
    (hmono : ∀ i, i < st.tableLen →
      (entryAt st i).dOffset < (entryAt st (i + 1)).dOffset) :
    (∀ i offset, i < st.tableLen → (entryAt st i).dOffset ≤ offset →
        offset < (entryAt st (i + 1)).dOffset →
        offset_to_frame_idx st offset = Int.ofNat i) ∧
    (∀ i, i < st.tableLen →
        offset_to_frame_idx st (entryAt st i).dOffset = Int.ofNat i) ∧
    (∀ offset, (entryAt st st.tableLen).dOffset ≤ offset →
        offset_to_frame_idx st offset = -1) := by
  have main : ∀ i offset, i < st.tableLen → (entryAt st i).dOffset ≤ offset →
      offset < (entryAt st (i + 1)).dOffset →
      offset_to_frame_idx st offset = Int.ofNat i := by
    intro i offset hi hlow hhigh
    have hsent : offset < (entryAt st st.tableLen).dOffset :=
      lt_of_lt_of_le hhigh (dOffset_mono st hmono (i + 1) st.tableLen (by omega) (le_refl _))
    rw [offset_to_frame_idx, if_neg (by omega)]
    have h0 : (entryAt st 0).dOffset ≤ offset :=
      le_trans (dOffset_mono st hmono 0 i (by omega) (by omega)) hlow
    obtain ⟨hr1, hr2, hr3, hr4⟩ :=
      searchLoop_spec st offset st.tableLen 0 st.tableLen (by omega) (by omega) h0 hsent
    set r := searchLoop st offset st.tableLen 0 st.tableLen with hr
    have : r = i := by
      rcases Nat.lt_trichotomy r i with h | h | h
      · have : (entryAt st (r + 1)).dOffset ≤ (entryAt st i).dOffset :=
          dOffset_mono st hmono (r + 1) i (by omega) (by omega)
        omega
      · exact h
      · have : (entryAt st (i + 1)).dOffset ≤ (entryAt st r).dOffset :=
          dOffset_mono st hmono (i + 1) r (by omega) (by omega)
        omega
    rw [this]
  refine ⟨main, ?_, ?_⟩
  · intro i hi
    exact main i (entryAt st i).dOffset hi (le_refl _) (hmono i hi)
  · intro offset h
    rw [offset_to_frame_idx, if_pos h]

/-- Witness for C2 at the concrete table `exTable`. -/
theorem offset_to_frame_idx_spec_witness :
    offset_to_frame_idx exTable 0 = Int.ofNat 0 ∧
    offset_to_frame_idx exTable 5 = Int.ofNat 1 ∧
    offset_to_frame_idx exTable 3 = Int.ofNat 1 ∧
    offset_to_frame_idx exTable 7 = -1 ∧
    offset_to_frame_idx exTable 8 = -1 :=
  ⟨(offset_to_frame_idx_spec exTable (by decide)).1 0 0 (by decide) (by decide)
      (by decide),
   (offset_to_frame_idx_spec exTable (by decide)).1 1 5 (by decide) (by decide)
      (by decide),
   (offset_to_frame_idx_spec exTable (by decide)).2.1 1 (by decide),
   (offset_to_frame_idx_spec exTable (by decide)).2.2 7 (by decide),
   (offset_to_frame_idx_spec exTable (by decide)).2.2 8 (by decide)⟩

theorem encodeEntry_length (b : Bool) (e : FramelogEntry) :
    (encodeEntry b e).length = sizePerFrame b := by
  cases b <;> simp [encodeEntry, le32, sizePerFrame]

theorem flattenMap_length (b : Bool) :
    ∀ es : List FramelogEntry,
      ((es.map (encodeEntry b)).flatten).length = sizePerFrame b * es.length
  | [] => by simp
  | e :: es => by
    simp only [List.map_cons, List.flatten_cons, List.length_append,
      encodeEntry_length, flattenMap_length b es, List.length_cons, Nat.mul_succ]
    omega

theorem seekTableBytes_length (es : List FramelogEntry) (b : Bool) :
    (seekTableBytes es b).length = 8 + sizePerFrame b * es.length + 9 := by
  simp only [seekTableBytes, List.length_append, le32_length, flattenMap_length,
    List.length_cons, List.length_nil]

/-- A 32-bit store that is aligned with the write position and has room for
all four bytes appends exactly the little-endian word. -/
theorem ZSTD_stwrite32_whole (fl : FrameLog) (output : OutBuffer)
    (value offset : Nat) (hpos : fl.seekTablePos = offset)
    (hlen : output.dst.length = offset) (hroom : offset + 4 ≤ output.size) :
    ZSTD_stwrite32 fl output value offset =
      ({ fl with seekTablePos := offset + 4 },
       { output with dst := output.dst ++ le32 value }, 0) := by
  have h4 : min (output.size - output.dst.length) (offset + 4 - fl.seekTablePos) = 4 := by
    omega
  have h0 : fl.seekTablePos - offset = 0 := by omega
  have htake : (le32 value).take 4 = le32 value := by simp [le32]
  unfold ZSTD_stwrite32
  rw [if_pos (by omega)]
  simp only [h4, h0, List.drop_zero, htake]
  rw [if_neg (by omega)]
  rw [hpos]

/-- Running the entry loop from entry `i` with a buffer that can hold the
whole table appends the encodings of the remaining entries. -/
theorem writeEntriesLoop_spec (b : Bool) (es : List FramelogEntry)
    (outSize : Nat) (hsize : 8 + sizePerFrame b * es.length + 9 ≤ outSize) :
    ∀ fuel i dst, fuel = es.length - i → i ≤ es.length →
      dst.length = 8 + sizePerFrame b * i →
      writeEntriesLoop fuel ⟨es, b, 8 + sizePerFrame b * i, i⟩ ⟨dst, outSize⟩ =
        (⟨es, b, 8 + sizePerFrame b * es.length, es.length⟩,
         ⟨dst ++ ((es.drop i).map (encodeEntry b)).flatten, outSize⟩, 0) := by
  intro fuel
  induction fuel with
  | zero =>
    intro i dst hfuel hi hdst
    have hieq : i = es.length := by omega
    subst hieq
    simp [writeEntriesLoop, List.drop_length]
  | succ fuel ih =>
    intro i dst hfuel hi hdst
    have hilt : i < es.length := by omega
    have hgetd : es.drop i = es.getD i default :: es.drop (i + 1) := by
      rw [List.getD_eq_getElem es default hilt]
      exact List.drop_eq_getElem_cons hilt
    cases b with
    | false =>
      have hspf : sizePerFrame false = 8 := rfl
      rw [hspf] at hsize hdst ih ⊢
      rw [writeEntriesLoop]
      simp only [hspf, if_pos hilt]
      rw [ZSTD_stwrite32_whole _ _ _ _ rfl hdst
        (by show 8 + 8 * i + 4 ≤ outSize; omega)]
      simp only [ne_eq, eq_self_iff_true, not_true, if_false]
      rw [ZSTD_stwrite32_whole _ _ _ _ rfl
        (by show (dst ++ le32 (es.getD i default).cSize).length = 8 + 8 * i + 4
            simp only [List.length_append, le32_length, hdst])
        (by show 8 + 8 * i + 4 + 4 ≤ outSize; omega)]
      simp only [ne_eq, eq_self_iff_true, not_true, if_false]
      rw [show 8 + 8 * i + 4 + 4 = 8 + 8 * (i + 1) from by ring]
      rw [ih (i + 1) _ (by omega) (by omega)
        (by simp only [List.length_append, le32_length, hdst]; omega)]
      rw [hgetd]
      simp [encodeEntry, List.append_assoc]
    | true =>
      have hspf : sizePerFrame true = 12 := rfl
      rw [hspf] at hsize hdst ih ⊢
      rw [writeEntriesLoop]
      simp only [hspf, if_pos hilt]
      rw [ZSTD_stwrite32_whole _ _ _ _ rfl hdst
        (by show 8 + 12 * i + 4 ≤ outSize; omega)]
      simp only [ne_eq, eq_self_iff_true, not_true, if_false]
      rw [ZSTD_stwrite32_whole _ _ _ _ rfl
        (by show (dst ++ le32 (es.getD i default).cSize).length = 8 + 12 * i + 4
            simp only [List.length_append, le32_length, hdst])
        (by show 8 + 12 * i + 4 + 4 ≤ outSize; omega)]
      simp only [ne_eq, eq_self_iff_true, not_true, if_false]
      rw [ZSTD_stwrite32_whole _ _ _ _ rfl
        (by show (dst ++ le32 (es.getD i default).cSize ++
              le32 (es.getD i default).dSize).length = 8 + 12 * i + 4 + 4
            simp only [List.length_append, le32_length, hdst])
        (by show 8 + 12 * i + 4 + 4 + 4 ≤ outSize; omega)]
      simp only [ne_eq, eq_self_iff_true, not_true, if_false]
      rw [show 8 + 12 * i + 4 + 4 + 4 = 8 + 12 * (i + 1) from by ring]
      rw [ih (i + 1) _ (by omega) (by omega)
        (by simp only [List.length_append, le32_length, hdst]; omega)]
      rw [hgetd]
      simp [encodeEntry, List.append_assoc]

/-- The entry loop started at index 0 writes all entry encodings. -/
theorem writeEntriesLoop_start (b : Bool) (es : List FramelogEntry)
    (outSize : Nat) (hsize : 8 + sizePerFrame b * es.length + 9 ≤ outSize)
    (fuel pos : Nat) (dst : List Nat) (hfuel : fuel = es.length)
    (hpos : pos = 8) (hdst : dst.length = 8) :
    writeEntriesLoop fuel ⟨es, b, pos, 0⟩ ⟨dst, outSize⟩ =
      (⟨es, b, 8 + sizePerFrame b * es.length, es.length⟩,
       ⟨dst ++ ((es.map (encodeEntry b))).flatten, outSize⟩, 0) := by
  subst hpos hfuel
  have h := writeEntriesLoop_spec b es outSize hsize es.length 0 dst (by omega)
    (by omega) (by simpa using hdst)
  simpa using h

/-- A single call to the trailer encoder on a fresh frame log with a buffer
large enough for the whole table emits exactly the expected trailer bytes
and reports completion. -/
theorem ZSTD_seekable_writeSeekTable_spec (es : List FramelogEntry) (b : Bool)
    (outSize : Nat) (hsize : 8 + sizePerFrame b * es.length + 9 ≤ outSize) :
    ZSTD_seekable_writeSeekTable ⟨es, b, 0, 0⟩ ⟨[], outSize⟩ =
      (⟨es, b, 8 + sizePerFrame b * es.length + 9, es.length⟩,
       ⟨seekTableBytes es b, outSize⟩, 0) := by
  have h4spf : 4 ≤ sizePerFrame b := by cases b <;> simp [sizePerFrame]
  have hspf12 : sizePerFrame b ≤ 12 := by cases b <;> simp [sizePerFrame]
  have hL : ZSTD_seekable_seekTableSize ⟨es, b, 0, 0⟩ =
      8 + sizePerFrame b * es.length + 9 := rfl
  simp only [ZSTD_seekable_writeSeekTable]
  rw [hL]
  rw [ZSTD_stwrite32_whole _ _ _ _ rfl rfl (by show 0 + 4 ≤ outSize; omega)]
  simp only [ne_eq, eq_self_iff_true, not_true, if_false]
  rw [ZSTD_stwrite32_whole _ _ _ _ rfl rfl (by show 4 + 4 ≤ outSize; omega)]
  simp only [ne_eq, eq_self_iff_true, not_true, if_false]
  rw [writeEntriesLoop_start b es outSize hsize _ _ _ (by show es.length - 0 = _; omega)
    (by norm_num) (by simp [le32])]
  simp only [ne_eq, eq_self_iff_true, not_true, if_false]
  rw [show 8 + sizePerFrame b * es.length + 9 - 9 = 8 + sizePerFrame b * es.length
    from by omega]
  rw [ZSTD_stwrite32_whole _ _ _ _ rfl
    (by simp only [List.nil_append, List.length_append, List.length_nil,
          le32_length, flattenMap_length])
    (by show 8 + sizePerFrame b * es.length + 4 ≤ outSize; omega)]
  simp only [ne_eq, eq_self_iff_true, not_true, if_false]
  rw [if_neg (by
    show ¬ (outSize - ([] ++ le32 0x184D2A5E ++ le32 (8 + sizePerFrame b * es.length + 9 - 8) ++
      (es.map (encodeEntry b)).flatten ++ le32 es.length).length < 1)
    simp only [List.nil_append, List.length_append, le32_length, flattenMap_length]
    omega)]
  rw [if_pos (show 8 + sizePerFrame b * es.length + 4 <
    8 + sizePerFrame b * es.length + 9 - 4 by omega)]
  rw [ZSTD_stwrite32_whole _ _ _ _
    (by show 8 + sizePerFrame b * es.length + 4 + 1 =
          8 + sizePerFrame b * es.length + 9 - 4
        omega)
    (by simp only [List.nil_append, List.length_append, List.length_nil,
          le32_length, flattenMap_length, List.length_cons]
        omega)
    (by show 8 + sizePerFrame b * es.length + 9 - 4 + 4 ≤ outSize; omega)]
  simp only [ne_eq, eq_self_iff_true, not_true, if_false]
  rw [if_neg (by omega)]
  refine Prod.ext ?_ (Prod.ext ?_ rfl)
  · show FrameLog.mk es b (8 + sizePerFrame b * es.length + 9 - 4 + 4) es.length = _
    have : 8 + sizePerFrame b * es.length + 9 - 4 + 4 =
        8 + sizePerFrame b * es.length + 9 := by omega
    rw [this]
  · show OutBuffer.mk ([] ++ le32 0x184D2A5E ++ le32 (8 + sizePerFrame b * es.length + 9 - 8) ++
      (es.map (encodeEntry b)).flatten ++ le32 es.length ++
      [if b then 128 else 0] ++ le32 0x8F92EAB1) outSize = _
    simp [seekTableBytes, List.append_assoc]

theorem readLE32_le32_append (v : Nat) (l : List Nat) (h : v < 4294967296) :
    readLE32 (le32 v ++ l) = v := by
  show v % 256 + 256 * (v / 256 % 256) + 65536 * (v / 65536 % 256) +
      16777216 * (v / 16777216 % 256) = v
  omega

theorem drop4_le32_append (v : Nat) (l : List Nat) : (le32 v ++ l).drop 4 = l := rfl

theorem drop5_le32_cons_append (v x : Nat) (l : List Nat) :
    (le32 v ++ (x :: l)).drop 5 = l := rfl

theorem drop8_le32_append (v w : Nat) (l : List Nat) :
    (le32 v ++ (le32 w ++ l)).drop 8 = l := rfl

theorem drop12_le32_append (u v w : Nat) (l : List Nat) :
    (le32 u ++ (le32 v ++ (le32 w ++ l))).drop 12 = l := rfl

theorem getD4_le32_cons_append (v x : Nat) (l : List Nat) :
    (le32 v ++ (x :: l)).getD 4 0 = x := rfl

theorem take8_le32_append (v w : Nat) (l : List Nat) :
    (le32 v ++ (le32 w ++ l)).take 8 = le32 v ++ le32 w := by
  show List.take 8 (v % 256 :: v / 256 % 256 :: v / 65536 % 256 ::
    v / 16777216 % 256 :: (le32 w ++ l)) = _
  simp [le32, List.take_append]

/-- Parsing the encoded entries region (with anything after it) recovers the
prefix-sum entries. -/
theorem read_st_entries_loop_append (b : Bool) :
    ∀ (es : List FramelogEntry) (tail : List Nat) (acc : List SeekEntry) (c0 d0 : Nat),
      (∀ e ∈ es, e.cSize < 4294967296 ∧ e.dSize < 4294967296 ∧
        e.checksum < 4294967296) →
      read_st_entries_loop b es.length ((es.map (encodeEntry b)).flatten ++ tail)
          c0 d0 acc =
        some (acc ++ prefixEntries b es c0 d0) := by
  intro es
  induction es with
  | nil => intro tail acc c0 d0 _; simp [read_st_entries_loop, prefixEntries]
  | cons e es ih =>
    intro tail acc c0 d0 hfields
    obtain ⟨hc, hd, hk⟩ := hfields e (List.mem_cons_self e es)
    have hfields' : ∀ x ∈ es, x.cSize < 4294967296 ∧ x.dSize < 4294967296 ∧
        x.checksum < 4294967296 := fun x hx => hfields x (List.mem_cons_of_mem e hx)
    cases b with
    | false =>
      show read_st_entries_loop false (es.length + 1) _ c0 d0 acc = _
      have hbytes : ((e :: es).map (encodeEntry false)).flatten ++ tail =
          le32 e.cSize ++ (le32 e.dSize ++
            ((es.map (encodeEntry false)).flatten ++ tail)) := by
        simp [encodeEntry, List.append_assoc]
      rw [hbytes, read_st_entries_loop]
      simp only [Bool.false_eq_true, if_false]
      rw [if_pos (by
        simp only [List.length_append, le32_length]
        omega)]
      rw [readLE32_le32_append _ _ hc, drop4_le32_append,
        readLE32_le32_append _ _ hd]
      rw [show (8 + 0 : Nat) = 8 from rfl, drop8_le32_append]
      rw [ih _ _ _ _ hfields']
      simp [prefixEntries]
    | true =>
      show read_st_entries_loop true (es.length + 1) _ c0 d0 acc = _
      have hbytes : ((e :: es).map (encodeEntry true)).flatten ++ tail =
          le32 e.cSize ++ (le32 e.dSize ++ (le32 e.checksum ++
            ((es.map (encodeEntry true)).flatten ++ tail))) := by
        simp [encodeEntry, List.append_assoc]
      rw [hbytes, read_st_entries_loop]
      simp only [eq_self_iff_true, if_true]
      rw [if_pos (by
        simp only [List.length_append, le32_length]
        omega)]
      rw [readLE32_le32_append _ _ hc, drop4_le32_append,
        readLE32_le32_append _ _ hd, drop8_le32_append,
        readLE32_le32_append _ _ hk]
      rw [show (8 + 4 : Nat) = 12 from rfl, drop12_le32_append]
      rw [ih _ _ _ _ hfields']
      simp [prefixEntries]
/-- Parsing the trailer bytes the encoder emits (as a file of its own)
recovers the frame count, the checksum flag, and the prefix-sum entries. -/
theorem read_seek_table_trailer (es : List FramelogEntry) (b : Bool)
    (hN : es.length ≤ ZSTD_SEEKABLE_MAXFRAMES)
    (hfields : ∀ e ∈ es, e.cSize < 4294967296 ∧ e.dSize < 4294967296 ∧
      e.checksum < 4294967296) :
    read_seek_table (seekTableBytes es b) =
      some ⟨prefixEntries b es 0 0, es.length, b⟩ := by
  have hNlt : es.length < 4294967296 := by
    have hmax : ZSTD_SEEKABLE_MAXFRAMES = 134217728 := rfl
    omega
  cases b with
  | false =>
    have hsplit : seekTableBytes es false =
        (le32 0x184D2A5E ++ le32 (8 + sizePerFrame false * es.length + 9 - 8) ++
          (es.map (encodeEntry false)).flatten) ++
        (le32 es.length ++ ((0 : Nat) :: le32 0x8F92EAB1)) := by
      simp [seekTableBytes, List.append_assoc]
    have hsplit' : seekTableBytes es false =
        le32 0x184D2A5E ++ (le32 (8 + 8 * es.length + 9 - 8) ++
          ((es.map (encodeEntry false)).flatten ++
            (le32 es.length ++ ((0 : Nat) :: le32 0x8F92EAB1)))) := by
      simp [seekTableBytes, sizePerFrame, List.append_assoc]
    have hplen : (le32 0x184D2A5E ++ le32 (8 + sizePerFrame false * es.length + 9 - 8) ++
        (es.map (encodeEntry false)).flatten).length = 8 + sizePerFrame false * es.length := by
      simp only [List.length_append, le32_length, flattenMap_length]
    have hlen : (seekTableBytes es false).length =
        8 + sizePerFrame false * es.length + 9 := seekTableBytes_length es false
    have hfooter : List.drop (8 + 8 * es.length + 9 - 9) (seekTableBytes es false) =
        le32 es.length ++ ((0 : Nat) :: le32 0x8F92EAB1) := by
      rw [hsplit]
      rw [show 8 + 8 * es.length + 9 - 9 =
        (le32 0x184D2A5E ++ le32 (8 + sizePerFrame false * es.length + 9 - 8) ++
          (es.map (encodeEntry false)).flatten).length from by
          rw [hplen]; rfl]
      exact List.drop_left _ _
    have hfoot9 : (le32 es.length ++ ((0 : Nat) :: le32 0x8F92EAB1)).length = 9 := by
      simp [le32]
    have hplt : 8 + 8 * es.length + 9 - 8 < 4294967296 := by
      have hmax : ZSTD_SEEKABLE_MAXFRAMES = 134217728 := rfl
      omega
    simp only [read_seek_table, fpread, ZSTD_seekTableFooterSize,
      ZSTD_SKIPPABLEHEADERSIZE, ZSTD_SEEKABLE_MAGICNUMBER,
      SEEKTABLE_SKIPPABLE_MAGICNUMBER]
    rw [if_neg (by rw [hlen]; show ¬ (8 + sizePerFrame false * es.length + 9 < 9); omega)]
    simp only [hlen, show sizePerFrame false = 8 from rfl, hfooter,
      List.take_of_length_le (le_of_eq hfoot9),
      drop5_le32_cons_append, getD4_le32_cons_append,
      readLE32_le32 _ (show (0x8F92EAB1:Nat) < 4294967296 by norm_num),
      readLE32_le32_append _ _ hNlt,
      Nat.zero_and, ne_eq, eq_self_iff_true, not_true, if_false,
      decide_not, Nat.add_zero]
    simp only [decide_False, Bool.false_eq_true, if_false, Nat.add_zero]
    rw [if_neg (by omega)]
    have hzero : 8 + 8 * es.length + 9 - (8 + es.length * 8 + 9) = 0 := by omega
    have hzero8 : 8 + 8 * es.length + 9 - (8 + es.length * 8 + 9) + 8 = 8 := by omega
    simp only [hzero, hzero8, Nat.zero_add, List.drop_zero, hsplit', take8_le32_append,
      drop4_le32_append, drop8_le32_append,
      readLE32_le32_append 0x184D2A5E (le32 (8 + 8 * es.length + 9 - 8)) (by norm_num),
      readLE32_le32 (8 + 8 * es.length + 9 - 8) hplt,
      ne_eq, eq_self_iff_true, not_true, if_false]
    rw [if_neg (by omega)]
    rw [read_st_entries_loop_append false es
      (le32 es.length ++ ((0 : Nat) :: le32 0x8F92EAB1)) [] 0 0 hfields]
    simp
  | true =>
    have hsplit : seekTableBytes es true =
        (le32 0x184D2A5E ++ le32 (8 + sizePerFrame true * es.length + 9 - 8) ++
          (es.map (encodeEntry true)).flatten) ++
        (le32 es.length ++ ((128 : Nat) :: le32 0x8F92EAB1)) := by
      simp [seekTableBytes, List.append_assoc]
    have hsplit' : seekTableBytes es true =
        le32 0x184D2A5E ++ (le32 (8 + 12 * es.length + 9 - 8) ++
          ((es.map (encodeEntry true)).flatten ++
            (le32 es.length ++ ((128 : Nat) :: le32 0x8F92EAB1)))) := by
      simp [seekTableBytes, sizePerFrame, List.append_assoc]
    have hplen : (le32 0x184D2A5E ++ le32 (8 + sizePerFrame true * es.length + 9 - 8) ++
        (es.map (encodeEntry true)).flatten).length = 8 + sizePerFrame true * es.length := by
      simp only [List.length_append, le32_length, flattenMap_length]
    have hlen : (seekTableBytes es true).length =
        8 + sizePerFrame true * es.length + 9 := seekTableBytes_length es true
    have hfooter : List.drop (8 + 12 * es.length + 9 - 9) (seekTableBytes es true) =
        le32 es.length ++ ((128 : Nat) :: le32 0x8F92EAB1) := by
      rw [hsplit]
      rw [show 8 + 12 * es.length + 9 - 9 =
        (le32 0x184D2A5E ++ le32 (8 + sizePerFrame true * es.length + 9 - 8) ++
          (es.map (encodeEntry true)).flatten).length from by
          rw [hplen]; show _ = 8 + sizePerFrame true * es.length; rw [show sizePerFrame true = 12 from rfl]; omega]
      exact List.drop_left _ _
    have hfoot9 : (le32 es.length ++ ((128 : Nat) :: le32 0x8F92EAB1)).length = 9 := by
      simp [le32]
    have hplt : 8 + 12 * es.length + 9 - 8 < 4294967296 := by
      have hmax : ZSTD_SEEKABLE_MAXFRAMES = 134217728 := rfl
      omega
    simp only [read_seek_table, fpread, ZSTD_seekTableFooterSize,
      ZSTD_SKIPPABLEHEADERSIZE, ZSTD_SEEKABLE_MAGICNUMBER,
      SEEKTABLE_SKIPPABLE_MAGICNUMBER]
    rw [if_neg (by rw [hlen]; show ¬ (8 + sizePerFrame true * es.length + 9 < 9); omega)]
    simp only [hlen, show sizePerFrame true = 12 from rfl, hfooter,
      List.take_of_length_le (le_of_eq hfoot9),
      drop5_le32_cons_append, getD4_le32_cons_append,
      readLE32_le32 _ (show (0x8F92EAB1:Nat) < 4294967296 by norm_num),
      readLE32_le32_append _ _ hNlt,
      ne_eq, eq_self_iff_true, not_true, if_false]
    simp only [show ((128 : Nat) &&& 124) = 0 from rfl,
      show (decide ¬((128:Nat) &&& 128 = 0)) = true from rfl,
      eq_self_iff_true, not_true, if_false, if_true,
      show ((8 : Nat) + 4) = 12 from rfl]
    rw [if_neg (by omega)]
    have hzero : 8 + 12 * es.length + 9 - (8 + es.length * 12 + 9) = 0 := by omega
    have hzero8 : 8 + 12 * es.length + 9 - (8 + es.length * 12 + 9) + 8 = 8 := by omega
    simp only [hzero, hzero8, Nat.zero_add, List.drop_zero, hsplit', take8_le32_append,
      drop4_le32_append, drop8_le32_append,
      readLE32_le32_append 0x184D2A5E (le32 (8 + 12 * es.length + 9 - 8)) (by norm_num),
      readLE32_le32 (8 + 12 * es.length + 9 - 8) hplt,
      ne_eq, eq_self_iff_true, not_true, if_false]
    rw [if_neg (by omega)]
    rw [read_st_entries_loop_append true es
      (le32 es.length ++ ((128 : Nat) :: le32 0x8F92EAB1)) [] 0 0 hfields]
    simp

theorem prefixEntries_length (b : Bool) :
    ∀ (es : List FramelogEntry) (c0 d0 : Nat),
      (prefixEntries b es c0 d0).length = es.length + 1
  | [], _, _ => rfl
  | e :: es, c0, d0 => by
    simp [prefixEntries, prefixEntries_length b es]

theorem prefixEntries_getD (b : Bool) :
    ∀ (es : List FramelogEntry) (c0 d0 i : Nat), i ≤ es.length →
      (prefixEntries b es c0 d0).getD i default =
        ⟨c0 + ((es.take i).map FramelogEntry.cSize).sum,
         d0 + ((es.take i).map FramelogEntry.dSize).sum,
         if i < es.length ∧ b = true then some ((es.getD i default).checksum)
         else none⟩ := by
  intro es
  induction es with
  | nil =>
    intro c0 d0 i hi
    simp only [List.length_nil] at hi
    have : i = 0 := by omega
    subst this
    simp [prefixEntries]
  | cons e es ih =>
    intro c0 d0 i hi
    match i with
    | 0 => cases b <;> simp [prefixEntries]
    | i + 1 =>
      have hi' : i ≤ es.length := by simpa using hi
      simp only [prefixEntries, List.getD_cons_succ]
      rw [ih (c0 + e.cSize) (d0 + e.dSize) i hi']
      simp [Nat.add_assoc, Nat.succ_lt_succ_iff]

theorem sum_take_succ_cSize (l : List FramelogEntry) (i : Nat) (h : i < l.length) :
    ((l.take (i + 1)).map FramelogEntry.cSize).sum =
      ((l.take i).map FramelogEntry.cSize).sum + (l.getD i default).cSize := by
  have h' : i < (l.map FramelogEntry.cSize).length := by simpa using h
  rw [List.map_take, List.map_take, List.take_succ]
  simp [List.getElem?_eq_getElem h', List.getElem?_eq_getElem h]

theorem sum_take_succ_dSize (l : List FramelogEntry) (i : Nat) (h : i < l.length) :
    ((l.take (i + 1)).map FramelogEntry.dSize).sum =
      ((l.take i).map FramelogEntry.dSize).sum + (l.getD i default).dSize := by
  have h' : i < (l.map FramelogEntry.dSize).length := by simpa using h
  rw [List.map_take, List.map_take, List.take_succ]
  simp [List.getElem?_eq_getElem h', List.getElem?_eq_getElem h]

theorem take4_le32_append (v : Nat) (l : List Nat) : (le32 v ++ l).take 4 = le32 v := rfl

/-- C3.  For every frame log `es` (with or without the checksum flag),
`ZSTD_seekable_writeSeekTable` (given a buffer that holds the whole table)
emits exactly `8 + entry_size * N + 9` bytes (entry size 8 without checksums,
12 with), starting with the skippable magic `0x184D2A5E` and ending with the
footer magic `0x8F92EAB1`; decoding those bytes with `read_seek_table` yields
a table whose per-index compressed size, decompressed size, and (when the
flag is set) checksum match the logged entries pairwise, and whose sentinel
`cOffset` and `dOffset` equal the sums of the logged sizes. -/
theorem seek_table_codec_roundtrip (es : List FramelogEntry) (b : Bool)
    (outSize : Nat) (hsize : 8 + sizePerFrame b * es.length + 9 ≤ outSize)
    (hN : es.length ≤ ZSTD_SEEKABLE_MAXFRAMES)
    (hfields : ∀ e ∈ es, e.cSize < 4294967296 ∧ e.dSize < 4294967296 ∧
      e.checksum < 4294967296) :
    (emittedTrailer es b outSize).length =
      8 + (if b = true then 12 else 8) * es.length + 9 ∧
    (emittedTrailer es b outSize).take 4 = le32 0x184D2A5E ∧
    (emittedTrailer es b outSize).drop ((emittedTrailer es b outSize).length - 4) =
      le32 0x8F92EAB1 ∧
    read_seek_table (emittedTrailer es b outSize) =
      some ⟨prefixEntries b es 0 0, es.length, b⟩ ∧
    (∀ i, i < es.length →
      frame_size_c ⟨prefixEntries b es 0 0, es.length, b⟩ i =
        (es.getD i default).cSize ∧
      frame_size_d ⟨prefixEntries b es 0 0, es.length, b⟩ i =
        (es.getD i default).dSize ∧
      (b = true → (entryAt ⟨prefixEntries b es 0 0, es.length, b⟩ i).checksum =
        some (es.getD i default).checksum)) ∧
    (entryAt ⟨prefixEntries b es 0 0, es.length, b⟩ es.length).cOffset =
      (es.map FramelogEntry.cSize).sum ∧
    (entryAt ⟨prefixEntries b es 0 0, es.length, b⟩ es.length).dOffset =
      (es.map FramelogEntry.dSize).sum := by
  have hspf : sizePerFrame b = if b = true then 12 else 8 := by
    cases b <;> rfl
  have hemit : emittedTrailer es b outSize = seekTableBytes es b := by
    unfold emittedTrailer
    rw [ZSTD_seekable_writeSeekTable_spec es b outSize hsize]
  have hlen : (emittedTrailer es b outSize).length =
      8 + (if b = true then 12 else 8) * es.length + 9 := by
    rw [hemit, seekTableBytes_length, hspf]
  refine ⟨hlen, ?_, ?_, ?_, ?_, ?_, ?_⟩
  · rw [hemit]
    show (seekTableBytes es b).take 4 = _
    rw [show seekTableBytes es b = le32 0x184D2A5E ++
      (le32 (8 + sizePerFrame b * es.length + 9 - 8) ++
        ((es.map (encodeEntry b)).flatten ++ (le32 es.length ++
          ((if b = true then (128:Nat) else 0) :: le32 0x8F92EAB1)))) from by
        simp [seekTableBytes, List.append_assoc]]
    exact take4_le32_append _ _
  · rw [hemit, seekTableBytes_length, hspf]
    rw [show seekTableBytes es b = (le32 0x184D2A5E ++
      le32 (8 + sizePerFrame b * es.length + 9 - 8) ++
      (es.map (encodeEntry b)).flatten ++ le32 es.length ++
      [if b = true then (128:Nat) else 0]) ++ le32 0x8F92EAB1 from by
        simp [seekTableBytes, List.append_assoc]]
    rw [show 8 + (if b = true then (12:Nat) else 8) * es.length + 9 - 4 =
      (le32 0x184D2A5E ++ le32 (8 + sizePerFrame b * es.length + 9 - 8) ++
        (es.map (encodeEntry b)).flatten ++ le32 es.length ++
        [if b = true then (128:Nat) else 0]).length from by
        simp only [List.length_append, le32_length, flattenMap_length,
          List.length_cons, List.length_nil, hspf]
        omega]
    exact List.drop_left _ _
  · rw [hemit]
    exact read_seek_table_trailer es b hN hfields
  · intro i hi
    have hgi := prefixEntries_getD b es 0 0 i (le_of_lt hi)
    have hgi1 := prefixEntries_getD b es 0 0 (i + 1) hi
    refine ⟨?_, ?_, ?_⟩
    · show (entryAt _ (i + 1)).cOffset - (entryAt _ i).cOffset = _
      show ((prefixEntries b es 0 0).getD (i + 1) default).cOffset -
        ((prefixEntries b es 0 0).getD i default).cOffset = _
      rw [hgi, hgi1]
      simp only [Nat.zero_add]
      rw [sum_take_succ_cSize es i hi]
      omega
    · show ((prefixEntries b es 0 0).getD (i + 1) default).dOffset -
        ((prefixEntries b es 0 0).getD i default).dOffset = _
      rw [hgi, hgi1]
      simp only [Nat.zero_add]
      rw [sum_take_succ_dSize es i hi]
      omega
    · intro hb
      show ((prefixEntries b es 0 0).getD i default).checksum = _
      rw [hgi]
      simp [hi, hb]
  · show ((prefixEntries b es 0 0).getD es.length default).cOffset = _
    rw [prefixEntries_getD b es 0 0 es.length (le_refl _)]
    simp [List.take_length]
  · show ((prefixEntries b es 0 0).getD es.length default).dOffset = _
    rw [prefixEntries_getD b es 0 0 es.length (le_refl _)]
    simp [List.take_length]

/-- Witness for C3 at a concrete two-entry frame log with checksums. -/
theorem seek_table_codec_roundtrip_witness :
    (emittedTrailer ex3Entries true 100).length = 41 ∧
    read_seek_table (emittedTrailer ex3Entries true 100) =
      some ⟨prefixEntries true ex3Entries 0 0, 2, true⟩ := by
  obtain ⟨h1, _, _, h4, _⟩ := seek_table_codec_roundtrip ex3Entries true 100
    (by decide) (by decide) (by decide)
  exact ⟨by rw [h1]; rfl, h4⟩


theorem hmFindItem_of_mem {l : List Frame} (f : Frame) (hf : f ∈ l) :
    ∃ g, hmFindItem l f.idx = some g := by
  induction l with
  | nil => cases hf
  | cons g rest ih =>
    by_cases hg : g.idx = f.idx
    · exact ⟨g, by simp [hmFindItem, hg]⟩
    · have hmem : f ∈ rest := by
        cases hf with
        | head => exact absurd rfl hg
        | tail _ h => exact h
      obtain ⟨g1, hg1⟩ := ih hmem
      exact ⟨g1, by simp [hmFindItem, hg, hg1]⟩

theorem hmFindItem_eq_some {l : List Frame} {idx : Nat} {f : Frame}
    (h : hmFindItem l idx = some f) : f ∈ l ∧ f.idx = idx := by
  induction l with
  | nil => cases h
  | cons g rest ih =>
    simp only [hmFindItem] at h
    by_cases hg : g.idx = idx
    · rw [if_pos hg] at h
      injection h with h1
      subst h1
      exact ⟨List.mem_cons_self g rest, hg⟩
    · rw [if_neg hg] at h
      obtain ⟨h1, h2⟩ := ih h
      exact ⟨List.mem_cons_of_mem _ h1, h2⟩

theorem hmRemoveItem_length {l : List Frame} {idx : Nat} {f : Frame}
    (h : hmFindItem l idx = some f) :
    (hmRemoveItem l idx).length + 1 = l.length := by
  induction l with
  | nil => cases h
  | cons g rest ih =>
    simp only [hmFindItem] at h
    by_cases hg : g.idx = idx
    · simp [hmRemoveItem, hg]
    · rw [if_neg hg] at h
      have := ih h
      simp only [hmRemoveItem, if_neg hg, List.length_cons]
      omega

theorem hmRemoveItem_mem {l : List Frame} {idx : Nat} {x : Frame}
    (h : x ∈ hmRemoveItem l idx) : x ∈ l := by
  induction l with
  | nil => simp only [hmRemoveItem] at h; cases h
  | cons g rest ih =>
    simp only [hmRemoveItem] at h
    by_cases hg : g.idx = idx
    · rw [if_pos hg] at h
      exact List.mem_cons_of_mem _ h
    · rw [if_neg hg] at h
      rcases List.mem_cons.mp h with h1 | h1
      · subst h1
        exact List.mem_cons_self _ _
      · exact List.mem_cons_of_mem _ (ih h1)

/-- C8 (amended): in the hash-map cache revision, inserting a frame whose
index is already cached fails and leaves the cache untouched; it never
creates a second entry under the same index.  (The tree-based revision has
no such duplicate check and accepts the insertion.) -/
theorem zseek_cache_insert_duplicate_fails (allocOk : Bool) (cache : HMCache)
    (frame : Frame) (h : ∃ f ∈ cache.map, f.idx = frame.idx) :
    zseek_cache_insert allocOk cache frame = (false, cache) := by
  obtain ⟨f, hf, hidx⟩ := h
  obtain ⟨g, hg⟩ := hmFindItem_of_mem f hf
  rw [hidx] at hg
  unfold zseek_cache_insert
  rw [hg]

/-- Witness for C8: inserting index 0 into a hash-map cache already holding
index 0 fails and leaves the cache unchanged. -/
theorem zseek_cache_insert_duplicate_fails_witness :
    zseek_cache_insert true ⟨[⟨[1], 0, 1⟩], 1, 2, 1⟩ ⟨[2], 0, 1⟩ =
      (false, ⟨[⟨[1], 0, 1⟩], 1, 2, 1⟩) :=
  zseek_cache_insert_duplicate_fails true ⟨[⟨[1], 0, 1⟩], 1, 2, 1⟩ ⟨[2], 0, 1⟩
    ⟨⟨[1], 0, 1⟩, by decide, rfl⟩

/-- Counterexample to C8 as stated: the tree+list cache revision performs
no duplicate check — `tsearch` hands back the existing node, the call
reports success, and a second list node with the same index is appended. -/
theorem treeRev_cache_insert_duplicate_succeeds :
    TreeRev.zseek_cache_insert true ⟨[0], [⟨[1], 0, 1⟩], 1, 2, 1⟩ ⟨[2], 0, 1⟩ =
      (true, ⟨[0], [⟨[1], 0, 1⟩, ⟨[2], 0, 1⟩], 2, 2, 2⟩) := by decide

/-- C10 (amended): in the hash-map cache revision, a failing insert leaves
the cache observably unchanged — same state, same entry count, same
reported memory usage.  (The tree-based revision instead evicts the LRU
entry before noticing an allocation failure.) -/
theorem zseek_cache_insert_fail_unchanged (allocOk : Bool) (cache : HMCache)
    (frame : Frame) (structBytes itemBytes hashOverhead : Nat)
    (h : (zseek_cache_insert allocOk cache frame).1 = false) :
    (zseek_cache_insert allocOk cache frame).2 = cache ∧
    zseek_cache_entries (zseek_cache_insert allocOk cache frame).2 =
      zseek_cache_entries cache ∧
    zseek_cache_memory_usage structBytes itemBytes hashOverhead
        (zseek_cache_insert allocOk cache frame).2 =
      zseek_cache_memory_usage structBytes itemBytes hashOverhead cache := by
  have h2 : (zseek_cache_insert allocOk cache frame).2 = cache := by
    unfold zseek_cache_insert at h ⊢
    cases hfind : hmFindItem cache.map frame.idx with
    | some f => simp [hfind]
    | none =>
      simp only [hfind] at h ⊢
      by_cases hc : cache.size = cache.capacity
      · simp only [if_pos hc] at h ⊢
        cases hmap : cache.map with
        | nil => rfl
        | cons lru rest =>
          rw [hmap] at h
          simp at h
      · simp only [if_neg hc] at h ⊢
        cases allocOk with
        | true => simp at h
        | false => rfl
  exact ⟨h2, by rw [h2], by rw [h2]⟩

/-- Witness for C10: a below-capacity insert whose node allocation fails
returns the cache exactly as it was. -/
theorem zseek_cache_insert_fail_unchanged_witness :
    (zseek_cache_insert false ⟨[], 0, 1, 0⟩ ⟨[1], 0, 1⟩).2 = ⟨[], 0, 1, 0⟩ ∧
    zseek_cache_entries (zseek_cache_insert false ⟨[], 0, 1, 0⟩ ⟨[1], 0, 1⟩).2 =
      zseek_cache_entries ⟨[], 0, 1, 0⟩ ∧
    zseek_cache_memory_usage 40 24 56
        (zseek_cache_insert false ⟨[], 0, 1, 0⟩ ⟨[1], 0, 1⟩).2 =
      zseek_cache_memory_usage 40 24 56 ⟨[], 0, 1, 0⟩ :=
  zseek_cache_insert_fail_unchanged false ⟨[], 0, 1, 0⟩ ⟨[1], 0, 1⟩ 40 24 56
    (by decide)

/-- Counterexample to C10 as stated: in the tree+list revision an insert at
capacity evicts the LRU entry before attempting the node allocation, so a
failing insert both fails and shrinks the cache by one entry. -/
theorem treeRev_cache_insert_fail_evicts :
    TreeRev.zseek_cache_insert false ⟨[0], [⟨[1], 0, 1⟩], 1, 1, 1⟩ ⟨[2], 1, 1⟩ =
      (false, ⟨[], [], 0, 1, 0⟩) ∧
    TreeRev.zseek_cache_entries
      (TreeRev.zseek_cache_insert false ⟨[0], [⟨[1], 0, 1⟩], 1, 1, 1⟩
        ⟨[2], 1, 1⟩).2 = 0 ∧
    TreeRev.zseek_cache_entries ⟨[0], [⟨[1], 0, 1⟩], 1, 1, 1⟩ = 1 := by decide

/-- C7 (amended): `read_seek_table` checks the footer descriptor byte
against the mask 0x7c only — parsing fails whenever any of bits 2..6 is
set, but bits 0 and 1 of the reserved range are not examined (and bit 7 is
the checksum flag). -/
theorem read_seek_table_reserved_bits (file : List Nat) :
    (∀ st, read_seek_table file = some st →
      ((fpread file ZSTD_seekTableFooterSize
          (file.length - ZSTD_seekTableFooterSize)).getD 4 0) &&& 0x7c = 0) ∧
    (((fpread file ZSTD_seekTableFooterSize
        (file.length - ZSTD_seekTableFooterSize)).getD 4 0) &&& 0x7c ≠ 0 →
      read_seek_table file = none) := by
  constructor
  · intro st h
    simp only [read_seek_table] at h
    split at h
    · exact absurd h (by simp)
    · split at h
      · exact absurd h (by simp)
      · split at h
        · exact absurd h (by simp)
        · rename_i hdesc
          exact not_not.mp hdesc
  · intro hdesc
    simp only [read_seek_table]
    by_cases h1 : file.length < ZSTD_seekTableFooterSize
    · rw [if_pos h1]
    · rw [if_neg h1]
      by_cases h2 : readLE32 (List.drop 5 (fpread file ZSTD_seekTableFooterSize
          (file.length - ZSTD_seekTableFooterSize))) ≠ ZSTD_SEEKABLE_MAGICNUMBER
      · rw [if_pos h2]
      · rw [if_neg h2, if_pos hdesc]

/-- Witness for C7: a minimal trailer whose descriptor byte is 0x04 (bit 2
set) is rejected. -/
theorem read_seek_table_reserved_bits_witness :
    read_seek_table (le32 0x184D2A5E ++ le32 9 ++ le32 0 ++ [4] ++
      le32 0x8F92EAB1) = none :=
  (read_seek_table_reserved_bits
    (le32 0x184D2A5E ++ le32 9 ++ le32 0 ++ [4] ++ le32 0x8F92EAB1)).2 (by decide)

/-- Counterexample to C7 as stated: `ex7file` carries descriptor byte 0x01
(reserved bit 0 set) yet parses successfully. -/
theorem read_seek_table_accepts_low_reserved_bit :
    read_seek_table ex7file = some ⟨[⟨0, 0, none⟩], 0, false⟩ ∧
    (fpread ex7file ZSTD_seekTableFooterSize
      (ex7file.length - ZSTD_seekTableFooterSize)).getD 4 0 = 1 := by decide


/-- C6: a pread at or past the archive's decompressed size is not an
error — it returns success with a zero byte count and leaves the reader
(including any cache) untouched. -/
theorem zseek_pread_out_of_range (decompress : List Nat → List Nat)
    (file : List Nat) (reader : Reader) (count offset : Nat)
    (h : seek_table_decompressed_size reader.st ≤ offset) :
    zseek_pread decompress file reader count offset = (some (0, []), reader) := by
  obtain ⟨st, cache, pos⟩ := reader
  have h' : (entryAt st st.tableLen).dOffset ≤ offset := h
  have hfi : offset_to_frame_idx st offset = -1 := by
    rw [offset_to_frame_idx, if_pos h']
  cases cache with
  | none => simp [zseek_pread, zseek_pread_zstd_no_cache, hfi]
  | some c => simp [zseek_pread, zseek_pread_zstd_cached, hfi]

/-- Witness for C6 at the one-frame table `exTable5` (decompressed size 5),
at offsets `D` and `D + 1`, both without and with a cache. -/
theorem zseek_pread_out_of_range_witness :
    zseek_pread (fun l => l) exFile5 ⟨exTable5, none, 0⟩ 10 5 =
      (some (0, []), ⟨exTable5, none, 0⟩) ∧
    zseek_pread (fun l => l) exFile5 ⟨exTable5, none, 0⟩ 10 6 =
      (some (0, []), ⟨exTable5, none, 0⟩) ∧
    zseek_pread (fun l => l) exFile5 ⟨exTable5, some ⟨[], 0, 1, 0⟩, 0⟩ 10 5 =
      (some (0, []), ⟨exTable5, some ⟨[], 0, 1, 0⟩, 0⟩) :=
  ⟨zseek_pread_out_of_range (fun l => l) exFile5 ⟨exTable5, none, 0⟩ 10 5
      (by decide),
   zseek_pread_out_of_range (fun l => l) exFile5 ⟨exTable5, none, 0⟩ 10 6
      (by decide),
   zseek_pread_out_of_range (fun l => l) exFile5 ⟨exTable5, some ⟨[], 0, 1, 0⟩, 0⟩
      10 5 (by decide)⟩

theorem zseek_pread_pos (decompress : List Nat → List Nat) (file : List Nat)
    (reader : Reader) (count offset : Nat) :
    (zseek_pread decompress file reader count offset).2.pos = reader.pos := by
  obtain ⟨st, cache, pos⟩ := reader
  cases cache <;> rfl

/-- C9: `zseek_read` advances the cursor by exactly the returned byte count
when that count is positive, and leaves the cursor where it was on a
zero-byte success or on an error. -/
theorem zseek_read_cursor (decompress : List Nat → List Nat) (file : List Nat)
    (reader : Reader) (count : Nat) (res : Option (Nat × List Nat))
    (reader' : Reader)
    (h : zseek_read decompress file reader count = (res, reader')) :
    (∀ n bs, res = some (n, bs) → 0 < n → reader'.pos = reader.pos + n) ∧
    (∀ bs, res = some (0, bs) → reader'.pos = reader.pos) ∧
    (res = none → reader'.pos = reader.pos) := by
  unfold zseek_read at h
  cases hr : (zseek_pread decompress file reader count reader.pos).1 with
  | none =>
    simp only [hr] at h
    rw [Prod.mk.injEq] at h
    obtain ⟨h1, h2⟩ := h
    subst h1
    refine ⟨?_, ?_, ?_⟩
    · intro n bs hres
      cases hres
    · intro bs hres
      cases hres
    · intro _
      rw [← h2, zseek_pread_pos]
  | some p =>
    obtain ⟨n, bs⟩ := p
    simp only [hr] at h
    rw [Prod.mk.injEq] at h
    obtain ⟨h1, h2⟩ := h
    subst h1
    refine ⟨?_, ?_, ?_⟩
    · intro n1 bs1 hres hn
      injection hres with hres1
      injection hres1 with hn1 hbs1
      subst hn1
      rw [if_pos hn] at h2
      rw [← h2]
      show (zseek_pread decompress file reader count reader.pos).2.pos + n =
        reader.pos + n
      rw [zseek_pread_pos]
    · intro bs1 hres
      injection hres with hres1
      injection hres1 with hn1 hbs1
      subst hn1
      rw [if_neg (by omega)] at h2
      rw [← h2, zseek_pread_pos]
    · intro hres
      cases hres

/-- Witness for C9: reading 3 bytes of the one-frame archive `exFile5` from
a fresh reader moves the cursor from 0 to 3. -/
theorem zseek_read_cursor_witness :
    (⟨exTable5, none, 3⟩ : Reader).pos = (⟨exTable5, none, 0⟩ : Reader).pos + 3 :=
  (zseek_read_cursor (fun l => l) exFile5 ⟨exTable5, none, 0⟩ 3
      (some (3, [1, 2, 3])) ⟨exTable5, none, 3⟩ (by decide)).1 3 [1, 2, 3] rfl
    (by decide)

/-- C1 fails on this code: with the identity codec, `min_frame_size` 4 and
the default group of 10 frames per seek-table entry, a single 10-byte
`write` takes the direct whole-frame path, `close` succeeds without
flushing the pending group, and the archive's seek table records zero
frames — the final `pread` of the full length at offset 0 then returns
zero bytes instead of the written data. -/
theorem write_close_pread_loses_data :
    (zseek_write_zstd (fun l => l) (zseek_writer_open_zstd 4) exB).isSome = true ∧
    (zseek_writer_close_zstd (fun l => l) exWriter1).1 = true ∧
    exArchive = (zseek_writer_close_zstd (fun l => l) exWriter1).2 ∧
    zseek_reader_open_full_zstd exArchive 0 =
      some ⟨⟨[⟨0, 0, none⟩], 0, false⟩, none, 0⟩ ∧
    zseek_pread (fun l => l) exArchive ⟨⟨[⟨0, 0, none⟩], 0, false⟩, none, 0⟩
      exB.length 0 = (some (0, []), ⟨⟨[⟨0, 0, none⟩], 0, false⟩, none, 0⟩) ∧
    exB.length = 10 := by
  refine ⟨rfl, rfl, rfl, rfl, rfl, rfl⟩

/-- C4 fails on this code: after the direct-compression path has emitted a
frame, the writer holds a pending seek-table-entry group
(`ste_frames = 1`, ten uncompressed bytes) but `frame_uc = 0`, so `close`
never reaches the force-flush; the trailer it writes records zero frames
and its sentinel dOffset is 0 rather than the 10 bytes passed to
`write`. -/
theorem close_drops_pending_group :
    exWriter1.ste_frames = 1 ∧ exWriter1.ste_uc = 10 ∧ exWriter1.frame_uc = 0 ∧
    (zseek_writer_close_zstd (fun l => l) exWriter1).1 = true ∧
    read_seek_table (zseek_writer_close_zstd (fun l => l) exWriter1).2 =
      some ⟨[⟨0, 0, none⟩], 0, false⟩ ∧
    seek_table_decompressed_size ⟨[⟨0, 0, none⟩], 0, false⟩ = 0 := by
  refine ⟨rfl, rfl, rfl, rfl, rfl, rfl⟩


/-- Pairwise growth of the cOffsets extends to any pair of indices up to
the sentinel. -/
theorem cOffset_mono (st : SeekTable)
    (hmono : ∀ i, i < st.tableLen →
      (entryAt st i).cOffset ≤ (entryAt st (i + 1)).cOffset) :
    ∀ i j, i ≤ j → j ≤ st.tableLen →
      (entryAt st i).cOffset ≤ (entryAt st j).cOffset := by
  intro i j hij hj
  induction j with
  | zero => simp_all
  | succ j ih =>
    rcases Nat.lt_or_ge i (j + 1) with h | h
    · exact le_trans (ih (by omega) (by omega)) (hmono j (by omega))
    · have : i = j + 1 := by omega
      subst this
      exact le_refl _

theorem toNat_ofNat (n : Nat) : (Int.ofNat n).toNat = n := rfl

/-- An offset strictly below the sentinel dOffset is resolved by
`offset_to_frame_idx` to an in-range frame index that brackets it. -/
theorem offset_to_frame_idx_lt (st : SeekTable) (offset : Nat)
    (h0 : (entryAt st 0).dOffset = 0)
    (hlt : offset < (entryAt st st.tableLen).dOffset) :
    ∃ r, offset_to_frame_idx st offset = Int.ofNat r ∧ r < st.tableLen ∧
      (entryAt st r).dOffset ≤ offset ∧
      offset < (entryAt st (r + 1)).dOffset := by
  have hpos : 0 < st.tableLen := by
    by_contra hc
    have hz : st.tableLen = 0 := by omega
    rw [hz, h0] at hlt
    omega
  obtain ⟨h1, h2, h3, h4⟩ := searchLoop_spec st offset st.tableLen 0 st.tableLen
    (by omega) hpos (by omega) hlt
  refine ⟨searchLoop st offset st.tableLen 0 st.tableLen, ?_, by omega, h3, h4⟩
  rw [offset_to_frame_idx, if_neg (by omega)]

theorem min_bound (count fsd oif : Nat) (h : oif ≤ fsd) :
    oif + min count (fsd - oif) ≤ fsd := by
  have := Nat.min_le_right count (fsd - oif)
  omega

/-- Inserting a frame whose index is not yet cached succeeds and preserves
the cache's structural invariants; every resulting entry is either an old
one or the inserted frame. -/
theorem zseek_cache_insert_fresh (cache : HMCache) (frame : Frame)
    (hfind : hmFindItem cache.map frame.idx = none)
    (hsz : cache.size = cache.map.length) (hcap : 0 < cache.capacity) :
    ∃ cache3, zseek_cache_insert true cache frame = (true, cache3) ∧
      cache3.size = cache3.map.length ∧ cache3.capacity = cache.capacity ∧
      ∀ g ∈ cache3.map, g ∈ cache.map ∨ g = frame := by
  unfold zseek_cache_insert
  rw [hfind]
  by_cases hc : cache.size = cache.capacity
  · rw [if_pos hc]
    cases hmap : cache.map with
    | nil =>
      rw [hmap] at hsz
      simp only [List.length_nil] at hsz
      omega
    | cons lru rest =>
      refine ⟨_, rfl, ?_, rfl, ?_⟩
      · show cache.size - 1 + 1 = (rest ++ [frame]).length
        rw [hmap] at hsz
        simp only [List.length_append, List.length_cons, List.length_nil] at hsz ⊢
        omega
      · intro g hg
        rcases List.mem_append.mp hg with h1 | h1
        · left
          exact List.mem_cons_of_mem _ h1
        · right
          exact List.mem_singleton.mp h1
  · rw [if_neg hc, if_pos rfl]
    refine ⟨_, rfl, ?_, rfl, ?_⟩
    · show cache.size + 1 = (cache.map ++ [frame]).length
      simp only [List.length_append, List.length_cons, List.length_nil]
      omega
    · intro g hg
      rcases List.mem_append.mp hg with h1 | h1
      · exact Or.inl h1
      · exact Or.inr (List.mem_singleton.mp h1)

/-- On a well-formed archive, a cached pread returns exactly what the
cacheless pread returns, and keeps the cache invariant. -/
theorem pread_cached_eq_nocache (d : List Nat → List Nat) (file : List Nat)
    (st : SeekTable) (cache : HMCache) (count offset : Nat)
    (hwf : archiveWF d file st) (hinv : cacheInv d file st cache) :
    (zseek_pread_zstd_cached d file st cache count offset).1 =
      zseek_pread_zstd_no_cache d file st count offset ∧
    cacheInv d file st
      (zseek_pread_zstd_cached d file st cache count offset).2 := by
  obtain ⟨hwf0, hwfd, hwfc, hwffile, hwflen⟩ := hwf
  obtain ⟨hsz, hcap, hmem⟩ := hinv
  by_cases hout : (entryAt st st.tableLen).dOffset ≤ offset
  · have hfi : offset_to_frame_idx st offset = -1 := by
      rw [offset_to_frame_idx, if_pos hout]
    have hc : zseek_pread_zstd_cached d file st cache count offset =
        (some (0, []), cache) := by
      simp [zseek_pread_zstd_cached, hfi]
    have hn : zseek_pread_zstd_no_cache d file st count offset = some (0, []) := by
      simp [zseek_pread_zstd_no_cache, hfi]
    rw [hc, hn]
    exact ⟨rfl, hsz, hcap, hmem⟩
  · push_neg at hout
    obtain ⟨r, hfi, hr, hlow, hhigh⟩ := offset_to_frame_idx_lt st offset hwf0 hout
    have hne : ¬(Int.ofNat r = -1) := by
      intro hcon
      have h0 : Int.ofNat 0 ≤ Int.ofNat r := Int.ofNat_le.mpr (Nat.zero_le r)
      exact absurd (hcon ▸ h0) (by decide)
    have hfileok : frame_offset_c st r + frame_size_c st r ≤ file.length := by
      have h1 := hwfc r hr
      have h2 := cOffset_mono st hwfc (r + 1) st.tableLen (by omega) (le_refl _)
      unfold frame_offset_c frame_size_c
      omega
    have hdlen := hwflen r hr
    have hbound := min_bound count (frame_size_d st r)
      (offset - frame_offset_d st r)
      (by unfold frame_size_d frame_offset_d; omega)
    have hno : zseek_pread_zstd_no_cache d file st count offset =
        some (min count (frame_size_d st r - (offset - frame_offset_d st r)),
          ((d (fpread file (frame_size_c st r) (frame_offset_c st r))).drop
            (offset - frame_offset_d st r)).take
            (min count (frame_size_d st r - (offset - frame_offset_d st r)))) := by
      unfold zseek_pread_zstd_no_cache
      simp only [hfi]
      rw [if_neg hne]
      simp only [toNat_ofNat]
      rw [if_pos hfileok]
      rw [if_pos (by rw [hdlen]; exact hbound)]
    cases hfind : hmFindItem cache.map r with
    | some f =>
      obtain ⟨hfmem, hfidx⟩ := hmFindItem_eq_some hfind
      obtain ⟨hfr, hfdata, hflen⟩ := hmem f hfmem
      rw [hfidx] at hfdata hflen
      have hcfind : zseek_cache_find cache r =
          (some f, { cache with map := hmRemoveItem cache.map r ++ [f] }) := by
        unfold zseek_cache_find
        rw [hfind]
      have hcc : zseek_pread_zstd_cached d file st cache count offset =
          (some (min count (f.len - (offset - frame_offset_d st r)),
            (f.data.drop (offset - frame_offset_d st r)).take
              (min count (f.len - (offset - frame_offset_d st r)))),
           { cache with map := hmRemoveItem cache.map r ++ [f] }) := by
        unfold zseek_pread_zstd_cached
        simp only [hfi]
        rw [if_neg hne]
        simp only [toNat_ofNat, hcfind]
      constructor
      · rw [hcc, hno, hflen, hfdata]
      · rw [hcc]
        refine ⟨?_, hcap, ?_⟩
        · show cache.size = (hmRemoveItem cache.map r ++ [f]).length
          have := hmRemoveItem_length hfind
          simp only [List.length_append, List.length_cons, List.length_nil]
          omega
        · intro g hg
          rcases List.mem_append.mp hg with h1 | h1
          · exact hmem g (hmRemoveItem_mem h1)
          · rw [List.mem_singleton.mp h1]
            exact hmem f hfmem
    | none =>
      have hcfind : zseek_cache_find cache r = (none, cache) := by
        unfold zseek_cache_find
        rw [hfind]
      obtain ⟨cache3, hins, hs3, hc3, hm3⟩ := zseek_cache_insert_fresh cache
        ⟨d (fpread file (frame_size_c st r) (frame_offset_c st r)), r,
          frame_size_d st r⟩ hfind hsz hcap
      have hcc : zseek_pread_zstd_cached d file st cache count offset =
          (some (min count (frame_size_d st r - (offset - frame_offset_d st r)),
            ((d (fpread file (frame_size_c st r) (frame_offset_c st r))).drop
              (offset - frame_offset_d st r)).take
              (min count (frame_size_d st r - (offset - frame_offset_d st r)))),
           cache3) := by
        unfold zseek_pread_zstd_cached
        simp only [hfi]
        rw [if_neg hne]
        simp only [toNat_ofNat, hcfind]
        rw [if_pos hfileok]
        simp only [hins]
      constructor
      · rw [hcc, hno]
      · rw [hcc]
        refine ⟨hs3, by rw [hc3]; exact hcap, ?_⟩
        intro g hg
        rcases hm3 g hg with h1 | h1
        · exact hmem g h1
        · rw [h1]
          exact ⟨hr, rfl, rfl⟩

/-- Threading any number of pread calls through a cached reader returns the
same result list as through a cacheless reader, whatever the two readers'
cursors. -/
theorem runReads_cached_eq_nocache (d : List Nat → List Nat) (file : List Nat)
    (st : SeekTable) (hwf : archiveWF d file st) :
    ∀ (queries : List (Nat × Nat)) (cache : HMCache) (p q : Nat),
      cacheInv d file st cache →
      runReads d file ⟨st, some cache, p⟩ queries =
        runReads d file ⟨st, none, q⟩ queries := by
  intro queries
  induction queries with
  | nil =>
    intro cache p q hinv
    rfl
  | cons cq qs ih =>
    intro cache p q hinv
    obtain ⟨count, offset⟩ := cq
    obtain ⟨heq, hinv2⟩ := pread_cached_eq_nocache d file st cache count offset
      hwf hinv
    show (zseek_pread d file ⟨st, some cache, p⟩ count offset).1 ::
        runReads d file (zseek_pread d file ⟨st, some cache, p⟩ count offset).2 qs =
      (zseek_pread d file ⟨st, none, q⟩ count offset).1 ::
        runReads d file (zseek_pread d file ⟨st, none, q⟩ count offset).2 qs
    have h1 : (zseek_pread d file ⟨st, some cache, p⟩ count offset).1 =
        (zseek_pread_zstd_cached d file st cache count offset).1 := rfl
    have h2 : (zseek_pread d file ⟨st, some cache, p⟩ count offset).2 =
        ⟨st, some (zseek_pread_zstd_cached d file st cache count offset).2, p⟩ :=
      rfl
    have h3 : (zseek_pread d file ⟨st, none, q⟩ count offset).1 =
        zseek_pread_zstd_no_cache d file st count offset := rfl
    have h4 : (zseek_pread d file ⟨st, none, q⟩ count offset).2 =
        ⟨st, none, q⟩ := rfl
    rw [h1, h2, h3, h4, heq, ih _ p q hinv2]

/-- C5 (amended): in the cache-optional revision, opening a reader with
cache capacity 0 succeeds and yields a reader with no cache (so every pread
takes the cacheless path), opening with a positive capacity yields a reader
with a fresh cache, and on a well-formed archive the two readers return
byte-for-byte identical results on every access pattern.  (The decompress.c
revision instead fails a capacity-0 open outright.) -/
theorem cache_transparent (d : List Nat → List Nat) (file : List Nat)
    (st : SeekTable) (K : Nat) (queries : List (Nat × Nat))
    (hst : read_seek_table file = some st) (hK : 0 < K)
    (hwf : archiveWF d file st) :
    zseek_reader_open_full_zstd file 0 = some ⟨st, none, 0⟩ ∧
    zseek_reader_open_full_zstd file K = some ⟨st, some ⟨[], 0, K, 0⟩, 0⟩ ∧
    runReads d file ⟨st, some ⟨[], 0, K, 0⟩, 0⟩ queries =
      runReads d file ⟨st, none, 0⟩ queries := by
  refine ⟨?_, ?_, ?_⟩
  · unfold zseek_reader_open_full_zstd
    simp only [hst]
    rw [if_neg (by omega : ¬(0 : Nat) > 0)]
  · unfold zseek_reader_open_full_zstd
    simp only [hst]
    rw [if_pos hK]
    unfold zseek_cache_new
    rw [if_neg (by omega : ¬K = 0)]
  · exact runReads_cached_eq_nocache d file st hwf queries ⟨[], 0, K, 0⟩ 0 0
      ⟨rfl, hK, fun g hg => absurd hg (List.not_mem_nil g)⟩

/-- Witness for C5: on the one-frame archive `exFile5`, a capacity-1 cached
reader and the cacheless reader agree on a three-call access pattern. -/
theorem cache_transparent_witness :
    runReads (fun l => l) exFile5 ⟨exTable5, some ⟨[], 0, 1, 0⟩, 0⟩
        [(3, 0), (2, 3), (10, 5)] =
      runReads (fun l => l) exFile5 ⟨exTable5, none, 0⟩ [(3, 0), (2, 3), (10, 5)] :=
  (cache_transparent (fun l => l) exFile5 exTable5 1 [(3, 0), (2, 3), (10, 5)]
    (by decide) (by decide)
    ⟨rfl,
     by intro i hi; have ht : exTable5.tableLen = 1 := rfl
        have h0 : i = 0 := by omega
        subst h0; decide,
     by intro i hi; have ht : exTable5.tableLen = 1 := rfl
        have h0 : i = 0 := by omega
        subst h0; decide,
     by decide,
     by intro i hi; have ht : exTable5.tableLen = 1 := rfl
        have h0 : i = 0 := by omega
        subst h0; rfl⟩).2.2


/-- Counterexample to C5 as stated: in the decompress.c revision the cache
is created unconditionally, so over a perfectly valid archive a reader
opened with cache capacity 0 does not open at all — `zseek_cache_new 0`
is NULL and the open fails instead of bypassing the cache. -/
theorem uncondRev_open_capacity_zero_fails :
    UncondRev.zseek_reader_open_full_zstd exFile5 0 = none ∧
    read_seek_table exFile5 = some exTable5 ∧
    zseek_cache_new 0 = none := by decide

end Zseek
